import Mathlib

/-!
A shallow embedding of `myinit.c`, a minimal process supervisor.

The supervisor of `myinit.c` is embedded as pure functions over an explicit
state.  Conventions of the embedding:

* a C string is a `List Char` (the characters before the terminating NUL);
* the three global arrays have `MAX_PROCESSES` cells; an access outside
  `0 .. MAX_PROCESSES-1`, a read before the start of a heap block and a
  dereference of `NULL` are undefined behaviour in C and end the run with
  `Halt.undefined_behaviour`;
* `exit(...)` ends the run with the matching `Halt` value;
* `fork` and `waitpid` are the environment: the value of the `n`-th call to
  `fork` is `Env.fork n`, the values `waitpid` hands out are a list of
  notifications; the configuration file is the list of lines `getline`
  reads (`none` when `fopen` fails);
* `int` values are `Int` (no run considered here comes near `INT_MAX`).
-/

namespace Myinit

/-- The constant `#define MAX_PROCESSES 10`. -/
def MAX_PROCESSES : Nat := 10

/-- How a run of the program ends: `exit(EXIT_FAILURE)`, `exit(EXIT_SUCCESS)`,
the branch `case 0` of `fork` (the process is the new child, no longer the
supervisor), or undefined behaviour of the C program. -/
inductive Halt where
  | exit_failure
  | exit_success
  | child_image
  | undefined_behaviour
deriving DecidableEq

deriving instance DecidableEq for Except

/-- The record `struct process_config`.  `argv` is the NULL-terminated
argument vector: the entries before the first `NULL`. -/
structure process_config where
  argc : Int
  argv : List (List Char)
  input_file : List Char
  output_file : List Char
deriving DecidableEq

/-- The characters of a buffer seen as a C string: those before the first NUL. -/
def cstr (buf : List Char) : List Char :=
  buf.takeWhile (fun c => c != Char.ofNat 0)

/-- The tokens `strtok(line, " ")`, `strtok(NULL, " ")`, ... hand out, in order:
the maximal runs of characters other than the space.  `cur` is the token
being scanned. -/
def strtok_scan (cur : List Char) : List Char → List (List Char)
  | [] => if cur.isEmpty then [] else [cur]
  | c :: cs =>
    if c == ' ' then
      (if cur.isEmpty then strtok_scan [] cs else cur :: strtok_scan [] cs)
    else strtok_scan (cur ++ [c]) cs

/-- All tokens of a line, as the calls to `strtok` return them until `NULL`. -/
def strtok_all (line : List Char) : List (List Char) :=
  strtok_scan [] (cstr line)

/-- The function `append_to_array`: `array[index] = strdup(str); return index + 1`.
The array is the block `malloc(MAX_PROCESSES * sizeof(char*))`, modelled by
the list of its cells written so far (cells are written in order from 0). -/
def append_to_array (array : List (List Char)) (str : List Char) (index : Nat) :
    Except Halt (List (List Char) × Nat) :=
  if index < MAX_PROCESSES then .ok (array ++ [str], index + 1)
  else .error .undefined_behaviour

/-- The function `validate_absolute_path`: `exit(EXIT_FAILURE)` unless
`path[0] == '/'`. -/
def validate_absolute_path (path : List Char) : Except Halt Unit :=
  if path.head? = some '/' then .ok () else .error .exit_failure

/-- The loop `while (token != NULL) { arg_index = append_to_array(...); token = strtok(NULL, " "); }`
over the tokens still to come. -/
def append_loop : List (List Char) → List (List Char) → Nat →
    Except Halt (List (List Char) × Nat)
  | [], argv, arg_index => .ok (argv, arg_index)
  | token :: more, argv, arg_index =>
    match append_to_array argv token arg_index with
    | .error e => .error e
    | .ok (argv1, arg_index1) => append_loop more argv1 arg_index1

/-- The statement `if (s[strlen(s)-1] == '\n') s[strlen(s)-1] = '\0';`. -/
def strip_newline (s : List Char) : List Char :=
  if s.getLast? = some '\n' then s.dropLast else s

/-- The function `parse_config_line`. -/
def parse_config_line (line : List Char) : Except Halt process_config :=
  match strtok_all line with
  | [] => .error .undefined_behaviour
  | token :: more =>
    match validate_absolute_path token with
    | .error e => .error e
    | .ok _ =>
      match append_loop (token :: more) [] 0 with
      | .error e => .error e
      | .ok (argv, arg_index) =>
        if arg_index < 2 then .error .undefined_behaviour
        else
          let input_file := argv.getD (arg_index - 2) []
          let output_file := strip_newline (argv.getD (arg_index - 1) [])
          match validate_absolute_path input_file with
          | .error e => .error e
          | .ok _ =>
            match validate_absolute_path output_file with
            | .error e => .error e
            | .ok _ =>
              .ok { argc := (arg_index : Int) - 2
                    argv := argv.take (arg_index - 2)
                    input_file := input_file
                    output_file := output_file }

/-- What the supervisor does to the outside world, in order: a successful
`fork` for a slot (the child runs that slot's specification), a
`kill(pid, SIGKILL)`, and the lines written by `write_to_log`.  The `command`
of a start line is `config.argv[0]`, `none` when that pointer is `NULL`. -/
inductive Event where
  | forked (slot : Nat) (pid : Int)
  | killed (pid : Int)
  | log_started (slot : Nat) (command : Option (List Char)) (pid : Int)
  | log_terminated (slot : Nat) (status : Int)
  | log_sighup_kill (slot : Nat)
  | log_restart
deriving DecidableEq

/-- The global variables `child_pids`, `active_processes_count` and
`process_configs` (a cell never assigned is `none`: the zero-initialised
record, whose `argv` is `NULL`), with the number of calls made to `fork` so
far and the events so far. -/
structure State where
  child_pids : List Int
  active_processes_count : Int
  process_configs : List (Option process_config)
  forks : Nat
  trace : List Event
deriving DecidableEq

/-- The state at program start: zero-initialised globals. -/
def State.init : State :=
  { child_pids := List.replicate MAX_PROCESSES 0
    active_processes_count := 0
    process_configs := List.replicate MAX_PROCESSES none
    forks := 0
    trace := [] }

/-- The arrays of a state have their declared size. -/
def State.wf (s : State) : Prop :=
  s.child_pids.length = MAX_PROCESSES ∧ s.process_configs.length = MAX_PROCESSES

instance (s : State) : Decidable s.wf := by
  unfold State.wf
  exact inferInstance

/-- The environment of the supervisor: the value returned by the `n`-th call
to `fork` (`-1` on failure, the new process identity otherwise). -/
structure Env where
  fork : Nat → Int

/-- Reading `a[i]` in an array of `MAX_PROCESSES` cells. -/
def array_get {α : Type} (a : List α) (i : Nat) : Except Halt α :=
  if i < MAX_PROCESSES then
    match a[i]? with
    | some v => .ok v
    | none => .error .undefined_behaviour
  else .error .undefined_behaviour

/-- The assignment `a[i] = v` in an array of `MAX_PROCESSES` cells. -/
def array_set {α : Type} (a : List α) (i : Nat) (v : α) : Except Halt (List α) :=
  if i < MAX_PROCESSES then .ok (a.set i v) else .error .undefined_behaviour

/-- The function `launch_process`. -/
def launch_process (env : Env) (process_index : Nat) (s : State) : Except Halt State :=
  match array_get s.process_configs process_index with
  | .error e => .error e
  | .ok none => .error .undefined_behaviour
  | .ok (some config) =>
    let pid := env.fork s.forks
    if pid = -1 then .error .exit_failure
    else if pid = 0 then .error .child_image
    else
      match array_set s.child_pids process_index pid with
      | .error e => .error e
      | .ok pids =>
        .ok { s with
              child_pids := pids
              active_processes_count := s.active_processes_count + 1
              forks := s.forks + 1
              trace := s.trace ++ [Event.forked process_index pid,
                Event.log_started process_index config.argv.head? pid] }

/-- The loop `while (getline(...) != -1) { process_configs[process_count] = parse_config_line(line); process_count++; }`
over the lines still to be read. -/
def load_loop : List (List Char) → Nat → State → Except Halt (State × Nat)
  | [], process_count, s => .ok (s, process_count)
  | line :: rest, process_count, s =>
    match parse_config_line line with
    | .error e => .error e
    | .ok config =>
      match array_set s.process_configs process_count (some config) with
      | .error e => .error e
      | .ok configs =>
        load_loop rest (process_count + 1) { s with process_configs := configs }

/-- The loop `for (int i = 0; i < process_count; i++) launch_process(i);`:
`todo` iterations are left, the next one is for `i`. -/
def launch_loop (env : Env) : Nat → Nat → State → Except Halt State
  | 0, _, s => .ok s
  | todo + 1, i, s =>
    match launch_process env i s with
    | .error e => .error e
    | .ok s1 => launch_loop env todo (i + 1) s1

/-- The function `run_processes` up to the end of its launch loop: open and
read the configuration, then launch every slot.  Returns the state and the
local `process_count`. -/
def run_processes_start (env : Env) (config_file : Option (List (List Char)))
    (s : State) : Except Halt (State × Nat) :=
  match config_file with
  | none => .error .exit_failure
  | some lines =>
    match load_loop lines 0 s with
    | .error e => .error e
    | .ok (s1, process_count) =>
      match launch_loop env process_count 0 s1 with
      | .error e => .error e
      | .ok s2 => .ok (s2, process_count)

/-- The inner loop of the supervisor loop, for one value returned by
`waitpid`: `for (int i = 0; i < process_count; i++) if (child_pids[i] == terminated_pid) {...}`;
`todo` iterations are left, the next one is for `i`. -/
def reap_loop (env : Env) (terminated_pid status : Int) : Nat → Nat → State → Except Halt State
  | 0, _, s => .ok s
  | todo + 1, i, s =>
    match array_get s.child_pids i with
    | .error e => .error e
    | .ok pid =>
      if pid = terminated_pid then
        match array_set s.child_pids i 0 with
        | .error e => .error e
        | .ok pids =>
          match launch_process env i
              { s with
                trace := s.trace ++ [Event.log_terminated i status]
                child_pids := pids
                active_processes_count := s.active_processes_count - 1 } with
          | .error e => .error e
          | .ok s1 => reap_loop env terminated_pid status todo (i + 1) s1
      else reap_loop env terminated_pid status todo (i + 1) s

/-- The supervisor loop `while (active_processes_count > 0) {...}` followed by
`exit(EXIT_SUCCESS)`, run on the values `waitpid` returns (identity and
status).  When these are used up the supervisor is blocked in `waitpid` and
the state is returned. -/
def wait_loop (env : Env) (process_count : Nat) : List (Int × Int) → State → Except Halt State
  | [], s => if 0 < s.active_processes_count then .ok s else .error .exit_success
  | (terminated_pid, status) :: rest, s =>
    if 0 < s.active_processes_count then
      match reap_loop env terminated_pid status process_count 0 s with
      | .error e => .error e
      | .ok s1 => wait_loop env process_count rest s1
    else .error .exit_success

/-- The function `run_processes`. -/
def run_processes (env : Env) (config_file : Option (List (List Char)))
    (notifications : List (Int × Int)) (s : State) : Except Halt State :=
  match run_processes_start env config_file s with
  | .error e => .error e
  | .ok (s1, process_count) => wait_loop env process_count notifications s1

/-- The loop of `handle_sighup`: `for (int i = 0; i < MAX_PROCESSES; i++) if (child_pids[i]) {kill; log}`;
`todo` iterations are left, the next one is for `i`. -/
def kill_loop : Nat → Nat → State → Except Halt State
  | 0, _, s => .ok s
  | todo + 1, i, s =>
    match array_get s.child_pids i with
    | .error e => .error e
    | .ok pid =>
      if pid ≠ 0 then
        kill_loop todo (i + 1)
          { s with trace := s.trace ++ [Event.killed pid, Event.log_sighup_kill i] }
      else kill_loop todo (i + 1) s

/-- The function `handle_sighup` up to the end of the launch loop of the
`run_processes` it calls: the kills, the log line, and the reload and
relaunch. -/
def handle_sighup_start (env : Env) (config_file : Option (List (List Char)))
    (s : State) : Except Halt (State × Nat) :=
  match kill_loop MAX_PROCESSES 0 s with
  | .error e => .error e
  | .ok s1 =>
    run_processes_start env config_file { s1 with trace := s1.trace ++ [Event.log_restart] }

/-- The function `handle_sighup`: it never returns to the interrupted code,
the `run_processes` it calls becomes the supervisor loop. -/
def handle_sighup (env : Env) (config_file : Option (List (List Char)))
    (notifications : List (Int × Int)) (s : State) : Except Halt State :=
  match handle_sighup_start env config_file s with
  | .error e => .error e
  | .ok (s1, process_count) => wait_loop env process_count notifications s1

/-- The number of slots marked running: the cells of `child_pids` that are not 0. -/
def running_slots (s : State) : Nat :=
  (s.child_pids.filter (fun pid => pid != 0)).length

/-- The events of the launch loop when every `fork` succeeds: for the slots
`i, i+1, ..., i+todo-1` in this order, the `fork` and its log line; `f0` is
the number of earlier calls to `fork`. -/
def launch_events (env : Env) (configs : List (Option process_config)) :
    Nat → Nat → Nat → List Event
  | 0, _, _ => []
  | todo + 1, i, f0 =>
    Event.forked i (env.fork f0) ::
      Event.log_started i ((configs.getD i none).bind (fun c => c.argv.head?)) (env.fork f0) ::
      launch_events env configs todo (i + 1) (f0 + 1)

/-- The events of the kill loop of `handle_sighup` for the handles `pids`
recorded in the slots `i, i+1, ...`: one `kill` and its log line each. -/
def kill_events : Nat → List Int → List Event
  | _, [] => []
  | i, pid :: pids => Event.killed pid :: Event.log_sighup_kill i :: kill_events (i + 1) pids

/-- The events of the loop of `handle_sighup` over the cells `pids` of
`child_pids` that start at slot `i`: a `kill` and a log line for every handle
that is not 0. -/
def sighup_events : Nat → List Int → List Event
  | _, [] => []
  | i, pid :: pids =>
    if pid ≠ 0 then Event.killed pid :: Event.log_sighup_kill i :: sighup_events (i + 1) pids
    else sighup_events (i + 1) pids

/-- The text of the tokens after the first one of a line: each token preceded
by its number of separating spaces minus one, so by at least one space. -/
def join_tokens : List (Nat × List Char) → List Char
  | [] => []
  | (n, t) :: rest => List.replicate (n + 1) ' ' ++ t ++ join_tokens rest

/-- What follows the last token of a line: the newline `getline` keeps, right
after the token; or, for a last line without a newline, `trail` spaces. -/
def line_end (newline : Bool) (trail : Nat) : List Char :=
  if newline then ['\n'] else List.replicate trail ' '

/-- What `strtok` leaves attached to the last token: the newline, if any. -/
def line_tail (newline : Bool) : List Char := if newline then ['\n'] else []

/-- A configuration line made of the token `t0` and the tokens of `rest`,
separated by one or more spaces, after `lead` spaces, and ended by
`line_end newline trail`. -/
def config_line (lead : Nat) (t0 : List Char) (rest : List (Nat × List Char))
    (newline : Bool) (trail : Nat) : List Char :=
  List.replicate lead ' ' ++ t0 ++ join_tokens rest ++ line_end newline trail

/-- A token: not empty, and free of the space, the newline and the NUL. -/
def is_token (t : List Char) : Prop :=
  t ≠ [] ∧ ∀ c ∈ t, c ≠ ' ' ∧ c ≠ '\n' ∧ c ≠ Char.ofNat 0

instance (t : List Char) : Decidable (is_token t) := by
  unfold is_token
  exact inferInstance

/-- What `strtok` finds in `t0 ++ join_tokens rest ++ tail`: the tokens, the
last one followed by `tail`. -/
def scanned (tail : List Char) : List Char → List (Nat × List Char) → List (List Char)
  | t0, [] => [t0 ++ tail]
  | t0, (_, t) :: rest => t0 :: scanned tail t rest

/-- The line has a path that is not absolute: it has tokens, and its first
token (the executable path), its token before the last (the input path) or
its last token (the output path) does not start with `/`.  The tokens are
those `strtok` hands out. -/
def has_relative_path (line : List Char) : Prop :=
  strtok_all line ≠ [] ∧
    (¬ ((strtok_all line).getD 0 []).head? = some '/' ∨
      (2 ≤ (strtok_all line).length ∧
        ¬ ((strtok_all line).getD ((strtok_all line).length - 2) []).head? = some '/') ∨
      ¬ ((strtok_all line).getD ((strtok_all line).length - 1) []).head? = some '/')

instance (line : List Char) : Decidable (has_relative_path line) := by
  unfold has_relative_path
  exact inferInstance

/-! ## Concrete inputs -/

/-- An environment in which the `n`-th `fork` succeeds and returns `100 + n`. -/
def env100 : Env := { fork := fun n => 100 + n }

/-- An environment in which only the first `k` calls to `fork` succeed. -/
def env_fork_limit (k : Nat) : Env := { fork := fun n => if n < k then 100 + n else -1 }

/-- A configuration of one line. -/
def cfg1 : List (List Char) := ["/bin/cat /tmp/in1 /tmp/out1\n".toList]

/-- The two-line configuration of the specification's scenario. -/
def cfg2 : List (List Char) :=
  ["/bin/cat /tmp/in1 /tmp/out1\n".toList, "/bin/echo hi /tmp/in2 /tmp/out2\n".toList]

/-- The record parsed from the line of `cfg1`. -/
def spec_cat : process_config :=
  { argc := 1, argv := ["/bin/cat".toList],
    input_file := "/tmp/in1".toList, output_file := "/tmp/out1".toList }

/-- The state once `cfg1` is loaded and its slot launched as process 100. -/
def state_one : State :=
  { child_pids := [100, 0, 0, 0, 0, 0, 0, 0, 0, 0]
    active_processes_count := 1
    process_configs := [some spec_cat, none, none, none, none, none, none, none, none, none]
    forks := 1
    trace := [Event.forked 0 100, Event.log_started 0 (some "/bin/cat".toList) 100] }

/-- The state after a restart in `state_one` whose `fork` returns 101. -/
def state_two : State :=
  { child_pids := [101, 0, 0, 0, 0, 0, 0, 0, 0, 0]
    active_processes_count := 2
    process_configs := [some spec_cat, none, none, none, none, none, none, none, none, none]
    forks := 2
    trace := [Event.forked 0 100, Event.log_started 0 (some "/bin/cat".toList) 100,
      Event.killed 100, Event.log_sighup_kill 0, Event.log_restart,
      Event.forked 0 101, Event.log_started 0 (some "/bin/cat".toList) 101] }

/-- The record parsed from the second line of `cfg2`. -/
def spec_echo : process_config :=
  { argc := 2, argv := ["/bin/echo".toList, "hi".toList],
    input_file := "/tmp/in2".toList, output_file := "/tmp/out2".toList }

/-- The state once `cfg2` is loaded and its slots launched as processes 100
and 101. -/
def state_pair : State :=
  { child_pids := [100, 101, 0, 0, 0, 0, 0, 0, 0, 0]
    active_processes_count := 2
    process_configs := [some spec_cat, some spec_echo, none, none, none, none, none, none,
      none, none]
    forks := 2
    trace := [Event.forked 0 100, Event.log_started 0 (some "/bin/cat".toList) 100,
      Event.forked 1 101, Event.log_started 1 (some "/bin/echo".toList) 101] }

/-- A configuration of eleven accepted lines. -/
def cfg11 : List (List Char) := List.replicate 11 "/bin/cat /tmp/in1 /tmp/out1\n".toList

/-- The two accepted lines of `cfg2` between a line whose input path is
relative and a line whose executable path is relative. -/
def cfg_relative : List (List Char) :=
  cfg2 ++ ["/bin/cat in1 /tmp/out1\n".toList, "cat /tmp/in1 /tmp/out1\n".toList]

/-- A line of one token, then a line whose executable path is relative. -/
def cfg_one_token : List (List Char) :=
  ["/bin/true\n".toList, "cat /tmp/in1 /tmp/out1\n".toList]

/-- A line of eleven tokens, all absolute paths. -/
def line11 : List Char := "/a /b /c /d /e /f /g /h /i /j /k\n".toList

/-! ## Arrays -/

theorem array_get_ok {α : Type} (a : List α) (i : Nat) (v : α)
    (hi : i < MAX_PROCESSES) (h : a[i]? = some v) : array_get a i = .ok v := by
  simp [array_get, hi, h]

theorem array_set_ok {α : Type} (a : List α) (i : Nat) (v : α)
    (hi : i < MAX_PROCESSES) : array_set a i v = .ok (a.set i v) := by
  simp [array_set, hi]

/-! ## Tokens -/

theorem strtok_scan_token (t : List Char) (ht : ∀ c ∈ t, c ≠ ' ') :
    ∀ (cur rest : List Char), strtok_scan cur (t ++ rest) = strtok_scan (cur ++ t) rest := by
  induction t with
  | nil => intro cur rest; simp
  | cons c cs ih =>
    intro cur rest
    have hc : c ≠ ' ' := ht c (by simp)
    have hb : (c == ' ') = false := by simpa using hc
    have := ih (fun d hd => ht d (List.mem_cons_of_mem _ hd)) (cur ++ [c]) rest
    have e : (c :: cs) ++ rest = c :: (cs ++ rest) := rfl
    rw [e]
    simp only [strtok_scan, hb, Bool.false_eq_true, if_false]
    rw [this]
    simp

theorem strtok_scan_spaces (n : Nat) (rest : List Char) :
    strtok_scan [] (List.replicate n ' ' ++ rest) = strtok_scan [] rest := by
  induction n with
  | zero => simp
  | succ n ih =>
    simp only [List.replicate_succ, List.cons_append, strtok_scan]
    simpa using ih

theorem strtok_scan_gap (cur : List Char) (hcur : cur ≠ []) (n : Nat) (rest : List Char) :
    strtok_scan cur (List.replicate (n + 1) ' ' ++ rest) = cur :: strtok_scan [] rest := by
  have he : cur.isEmpty = false := by
    cases cur with
    | nil => exact absurd rfl hcur
    | cons _ _ => rfl
  simp only [List.replicate_succ, List.cons_append, strtok_scan, he]
  simp [strtok_scan_spaces]

theorem strtok_scan_tail (cur tail : List Char) (hcur : cur ≠ [])
    (htail : ∀ c ∈ tail, c ≠ ' ') : strtok_scan cur tail = [cur ++ tail] := by
  have h := strtok_scan_token tail htail cur []
  simp only [List.append_nil] at h
  rw [h]
  have he : (cur ++ tail).isEmpty = false := by
    cases cur with
    | nil => exact absurd rfl hcur
    | cons _ _ => rfl
  simp [strtok_scan, he]

theorem strtok_scan_line_end (cur : List Char) (hcur : cur ≠ []) (newline : Bool)
    (trail : Nat) : strtok_scan cur (line_end newline trail) = [cur ++ line_tail newline] := by
  cases newline with
  | true =>
    have h := strtok_scan_tail cur ['\n'] hcur (by
      intro c hc
      simp only [List.mem_singleton] at hc
      rw [hc]; decide)
    simpa [line_end, line_tail] using h
  | false =>
    cases trail with
    | zero =>
      have h := strtok_scan_tail cur [] hcur (by intro c hc; simp at hc)
      simpa [line_end, line_tail] using h
    | succ n =>
      have h := strtok_scan_gap cur hcur n []
      simp only [List.append_nil] at h
      have hl : line_end false (n + 1) = List.replicate (n + 1) ' ' := by simp [line_end]
      have ht : line_tail false = [] := by simp [line_tail]
      rw [hl, ht, h, List.append_nil]
      simp [strtok_scan]

theorem strtok_scan_join (newline : Bool) (trail : Nat) :
    ∀ (rest : List (Nat × List Char)) (t0 : List Char), t0 ≠ [] →
      (∀ p ∈ rest, is_token p.2) →
      strtok_scan t0 (join_tokens rest ++ line_end newline trail) =
        scanned (line_tail newline) t0 rest := by
  intro rest
  induction rest with
  | nil =>
    intro t0 h0 _
    simpa [join_tokens, scanned] using strtok_scan_line_end t0 h0 newline trail
  | cons p rest ih =>
    intro t0 h0 hrest
    obtain ⟨n, t⟩ := p
    have ht : is_token t := hrest (n, t) (by simp)
    simp only [join_tokens, scanned, List.append_assoc]
    rw [strtok_scan_gap t0 h0, strtok_scan_token t (fun c hc => (ht.2 c hc).1)]
    rw [List.nil_append]
    exact congrArg _ (ih t ht.1 (fun p hp => hrest p (List.mem_cons_of_mem _ hp)))

theorem scanned_length (tail : List Char) :
    ∀ (rest : List (Nat × List Char)) (t0 : List Char),
      (scanned tail t0 rest).length = rest.length + 1 := by
  intro rest
  induction rest with
  | nil => intro t0; rfl
  | cons p rest ih =>
    intro t0
    obtain ⟨n, t⟩ := p
    simp [scanned, ih]

theorem scanned_getElem? (tail : List Char) :
    ∀ (rest : List (Nat × List Char)) (t0 : List Char) (j : Nat),
      (scanned tail t0 rest)[j]? =
        if j < rest.length then (t0 :: rest.map Prod.snd)[j]?
        else if j = rest.length then some ((t0 :: rest.map Prod.snd).getD j [] ++ tail)
        else none := by
  intro rest
  induction rest with
  | nil =>
    intro t0 j
    cases j with
    | zero => simp [scanned]
    | succ j => simp [scanned]
  | cons p rest ih =>
    intro t0 j
    obtain ⟨n, t⟩ := p
    cases j with
    | zero => simp [scanned]
    | succ j =>
      simp only [scanned, List.getElem?_cons_succ, ih t j, List.length_cons, List.map_cons,
        Nat.add_lt_add_iff_right, Nat.add_right_cancel_iff, List.getD_cons_succ]

theorem append_loop_ok :
    ∀ (tokens argv : List (List Char)) (i : Nat), i + tokens.length ≤ MAX_PROCESSES →
      append_loop tokens argv i = .ok (argv ++ tokens, i + tokens.length) := by
  intro tokens
  induction tokens with
  | nil => intro argv i _; simp [append_loop]
  | cons t ts ih =>
    intro argv i h
    have hi : i < MAX_PROCESSES := by simp at h; omega
    simp only [append_loop, append_to_array, hi, if_true]
    rw [ih (argv ++ [t]) (i + 1) (by simp at h ⊢; omega)]
    simp
    omega

theorem strip_newline_end (t : List Char) (ht : is_token t) (newline : Bool) :
    strip_newline (t ++ line_tail newline) = t := by
  cases newline with
  | true =>
    simp [strip_newline, line_tail]
  | false =>
    have h : t.getLast? ≠ some '\n' := by
      intro hl
      have hm : '\n' ∈ t := List.mem_of_getLast?_eq_some hl
      exact (ht.2 _ hm).2.1 rfl
    simp [strip_newline, line_tail, h]

theorem cstr_eq_self (l : List Char) (h : ∀ c ∈ l, c ≠ Char.ofNat 0) : cstr l = l := by
  unfold cstr
  rw [List.takeWhile_eq_self_iff]
  intro c hc
  simpa using h c hc

theorem join_tokens_mem :
    ∀ (rest : List (Nat × List Char)) (c : Char), c ∈ join_tokens rest →
      c = ' ' ∨ ∃ p ∈ rest, c ∈ p.2 := by
  intro rest
  induction rest with
  | nil => intro c h; simp [join_tokens] at h
  | cons p rest ih =>
    intro c h
    obtain ⟨n, t⟩ := p
    simp only [join_tokens, List.mem_append, List.mem_replicate] at h
    rcases h with (h | h) | h
    · exact Or.inl h.2
    · exact Or.inr ⟨(n, t), by simp, h⟩
    · rcases ih c h with h1 | ⟨q, hq, hc⟩
      · exact Or.inl h1
      · exact Or.inr ⟨q, List.mem_cons_of_mem _ hq, hc⟩

theorem strtok_all_config_line (lead : Nat) (t0 : List Char) (rest : List (Nat × List Char))
    (newline : Bool) (trail : Nat) (h0 : is_token t0) (hrest : ∀ p ∈ rest, is_token p.2) :
    strtok_all (config_line lead t0 rest newline trail) =
      scanned (line_tail newline) t0 rest := by
  have hnul : ∀ c ∈ config_line lead t0 rest newline trail, c ≠ Char.ofNat 0 := by
    intro c hc
    simp only [config_line, List.mem_append, List.mem_replicate] at hc
    rcases hc with ((hc | hc) | hc) | hc
    · rw [hc.2]; decide
    · exact (h0.2 c hc).2.2
    · rcases join_tokens_mem rest c hc with h1 | ⟨p, hp, hcp⟩
      · rw [h1]; decide
      · exact ((hrest p hp).2 c hcp).2.2
    · cases newline with
      | true =>
        simp only [line_end, if_true, List.mem_singleton] at hc
        rw [hc]; decide
      | false =>
        simp only [line_end, Bool.false_eq_true, if_false, List.mem_replicate] at hc
        rw [hc.2]; decide
  unfold strtok_all
  rw [cstr_eq_self _ hnul]
  simp only [config_line, List.append_assoc]
  rw [strtok_scan_spaces, strtok_scan_token t0 (fun c hc => (h0.2 c hc).1), List.nil_append]
  exact strtok_scan_join newline trail rest t0 h0.1 hrest

/-- What `parse_config_line` returns on a line whose tokens are `tokens` with
`tail` after the last one. -/
theorem parse_config_line_of_tokens (line : List Char) (toks : List (List Char))
    (hs : strtok_all line = toks)
    (hfirst : (toks.getD 0 []).head? = some '/')
    (hlen2 : 2 ≤ toks.length) (hmax : toks.length ≤ MAX_PROCESSES)
    (hin : (toks.getD (toks.length - 2) []).head? = some '/')
    (hout : (strip_newline (toks.getD (toks.length - 1) [])).head? = some '/') :
    parse_config_line line = .ok
      { argc := (toks.length : Int) - 2
        argv := toks.take (toks.length - 2)
        input_file := toks.getD (toks.length - 2) []
        output_file := strip_newline (toks.getD (toks.length - 1) []) } := by
  have hloop := append_loop_ok toks [] 0 (by omega)
  simp only [List.nil_append, Nat.zero_add] at hloop
  unfold parse_config_line
  rw [hs]
  cases toks with
  | nil => simp at hlen2
  | cons token more =>
    have hv : validate_absolute_path token = .ok () := by
      simpa [validate_absolute_path] using hfirst
    have hlt : ¬ ((token :: more).length < 2) := by omega
    simp only [hv, hloop, if_neg hlt]
    have hvin : validate_absolute_path ((token :: more).getD ((token :: more).length - 2) []) =
        .ok () := by
      simpa [validate_absolute_path] using hin
    have hvout : validate_absolute_path
        (strip_newline ((token :: more).getD ((token :: more).length - 1) [])) = .ok () := by
      simpa [validate_absolute_path] using hout
    simp only [hvin, hvout]

/-! ## Lines that are refused -/

theorem validate_absolute_path_ok_iff (path : List Char) :
    validate_absolute_path path = .ok () ↔ path.head? = some '/' := by
  unfold validate_absolute_path
  split <;> simp [*]

theorem validate_absolute_path_error (path : List Char) (e : Halt)
    (h : validate_absolute_path path = .error e) : e = .exit_failure := by
  unfold validate_absolute_path at h
  split at h
  · cases h
  · simp only [Except.error.injEq] at h
    exact h.symm

theorem append_loop_inv :
    ∀ (tokens argv : List (List Char)) (i : Nat) (argv1 : List (List Char)) (n : Nat),
      append_loop tokens argv i = .ok (argv1, n) →
      argv1 = argv ++ tokens ∧ n = i + tokens.length ∧
        (tokens ≠ [] → i + tokens.length ≤ MAX_PROCESSES) := by
  intro tokens
  induction tokens with
  | nil =>
    intro argv i argv1 n h
    simp only [append_loop, Except.ok.injEq, Prod.mk.injEq] at h
    exact ⟨by simp [h.1], by simp [h.2], fun hne => absurd rfl hne⟩
  | cons t ts ih =>
    intro argv i argv1 n h
    simp only [append_loop, append_to_array] at h
    by_cases hi : i < MAX_PROCESSES
    · simp only [hi, if_true] at h
      obtain ⟨h1, h2, h3⟩ := ih _ _ _ _ h
      refine ⟨by simp [h1], by simp [h2]; omega, fun _ => ?_⟩
      by_cases hts : ts = []
      · subst hts
        simp
        omega
      · have := h3 hts
        simp
        omega
    · simp only [hi, if_false] at h
      cases h

theorem append_loop_error :
    ∀ (tokens argv : List (List Char)) (i : Nat) (e : Halt),
      append_loop tokens argv i = .error e → e = .undefined_behaviour := by
  intro tokens
  induction tokens with
  | nil => intro argv i e h; simp [append_loop] at h
  | cons t ts ih =>
    intro argv i e h
    simp only [append_loop, append_to_array] at h
    by_cases hi : i < MAX_PROCESSES
    · simp only [hi, if_true] at h
      exact ih _ _ _ h
    · simp only [hi, if_false, Except.error.injEq] at h
      exact h.symm

/-- The head of a token is not changed by taking the newline off its end. -/
theorem strip_newline_head (t : List Char) :
    (strip_newline t).head? = some '/' ↔ t.head? = some '/' := by
  unfold strip_newline
  cases t with
  | nil => simp
  | cons c cs =>
    cases cs with
    | nil =>
      by_cases hc : c = '\n'
      · subst hc
        simp
      · simp [hc]
    | cons d ds =>
      split <;> simp

/-- What it takes for a line to be accepted by `parse_config_line`. -/
theorem parse_config_line_ok_inv (line : List Char) (c : process_config)
    (h : parse_config_line line = .ok c) :
    2 ≤ (strtok_all line).length ∧ (strtok_all line).length ≤ MAX_PROCESSES ∧
      ((strtok_all line).getD 0 []).head? = some '/' ∧
      ((strtok_all line).getD ((strtok_all line).length - 2) []).head? = some '/' ∧
      ((strtok_all line).getD ((strtok_all line).length - 1) []).head? = some '/' := by
  unfold parse_config_line at h
  split at h
  · cases h
  · rename_i token more htoks
    split at h
    · cases h
    · rename_i hv0
      split at h
      · cases h
      · rename_i argv arg_index hloop
        obtain ⟨ha, hn, hmax⟩ := append_loop_inv _ _ _ _ _ hloop
        simp only [List.nil_append, Nat.zero_add] at ha hn
        subst ha
        subst hn
        split at h
        · cases h
        · rename_i hlt
          simp only at h
          split at h
          · cases h
          · rename_i hvin
            split at h
            · cases h
            · rename_i hvout
              have e0 : validate_absolute_path token = .ok () := hv0
              have e1 := (validate_absolute_path_ok_iff _).mp e0
              have e2 := (validate_absolute_path_ok_iff _).mp hvin
              have e3 := (strip_newline_head _).mp
                ((validate_absolute_path_ok_iff _).mp hvout)
              rw [htoks]
              have hm := hmax (by simp)
              exact ⟨by omega, by omega, by simpa using e1, e2, e3⟩

theorem parse_config_line_error (line : List Char) (e : Halt)
    (h : parse_config_line line = .error e) :
    e = .exit_failure ∨ e = .undefined_behaviour := by
  unfold parse_config_line at h
  split at h
  · simp only [Except.error.injEq] at h
    exact Or.inr h.symm
  · split at h
    · rename_i e0 hv
      simp only [Except.error.injEq] at h
      subst h
      exact Or.inl (validate_absolute_path_error _ _ hv)
    · split at h
      · rename_i e0 hl
        simp only [Except.error.injEq] at h
        subst h
        exact Or.inr (append_loop_error _ _ _ _ hl)
      · split at h
        · simp only [Except.error.injEq] at h
          exact Or.inr h.symm
        · simp only at h
          split at h
          · rename_i e0 hv
            simp only [Except.error.injEq] at h
            subst h
            exact Or.inl (validate_absolute_path_error _ _ hv)
          · split at h
            · rename_i e0 hv
              simp only [Except.error.injEq] at h
              subst h
              exact Or.inl (validate_absolute_path_error _ _ hv)
            · cases h

/-- A line with a path that is not absolute is never accepted. -/
theorem parse_config_line_relative (line : List Char) (hbad : has_relative_path line) :
    ∃ e, parse_config_line line = .error e ∧
      (e = .exit_failure ∨ e = .undefined_behaviour) := by
  cases hp : parse_config_line line with
  | error e => exact ⟨e, rfl, parse_config_line_error line e hp⟩
  | ok c =>
    obtain ⟨_, _, h0, h1, h2⟩ := parse_config_line_ok_inv line c hp
    obtain ⟨_, hb | hb | hb⟩ := hbad
    · exact absurd h0 hb
    · exact absurd h1 hb.2
    · exact absurd h2 hb

/-! ## The launcher -/

theorem launch_process_ok (env : Env) (i : Nat) (s : State) (c : process_config)
    (hi : i < MAX_PROCESSES) (hc : s.process_configs[i]? = some (some c))
    (hf : 0 < env.fork s.forks) :
    ∃ s1, launch_process env i s = .ok s1 ∧
      s1.child_pids = s.child_pids.set i (env.fork s.forks) ∧
      s1.active_processes_count = s.active_processes_count + 1 ∧
      s1.process_configs = s.process_configs ∧
      s1.forks = s.forks + 1 ∧
      s1.trace = s.trace ++ [Event.forked i (env.fork s.forks),
          Event.log_started i c.argv.head? (env.fork s.forks)] := by
  have h1 : env.fork s.forks ≠ -1 := by omega
  have h0 : env.fork s.forks ≠ 0 := by omega
  simp [launch_process, array_get_ok _ _ _ hi hc, array_set_ok _ _ _ hi, h1, h0]

theorem launch_loop_ok_local (env : Env) :
    ∀ (todo i : Nat) (s : State), s.wf → i + todo ≤ MAX_PROCESSES →
      (∀ j, i ≤ j → j < i + todo → ∃ c, s.process_configs[j]? = some (some c)) →
      (∀ j, j < todo → 0 < env.fork (s.forks + j)) →
      ∃ s1, launch_loop env todo i s = .ok s1 ∧ s1.wf ∧
        s1.active_processes_count = s.active_processes_count + todo ∧
        s1.process_configs = s.process_configs ∧
        s1.forks = s.forks + todo ∧
        s1.trace = s.trace ++ launch_events env s.process_configs todo i s.forks ∧
        ∀ j, s1.child_pids[j]? =
          if i ≤ j ∧ j < i + todo then some (env.fork (s.forks + (j - i)))
          else s.child_pids[j]? := by
  intro todo
  induction todo with
  | zero =>
    intro i s hwf _ _ _
    refine ⟨s, rfl, hwf, by simp, rfl, rfl, by simp [launch_events], ?_⟩
    intro j
    have : ¬ (i ≤ j ∧ j < i) := by omega
    simp [this]
  | succ todo ih =>
    intro i s hwf hle hcfg hf
    obtain ⟨c, hc⟩ := hcfg i (le_refl i) (by omega)
    have hi : i < MAX_PROCESSES := by omega
    obtain ⟨s0, hstep, p0, a0, c0, f0, t0⟩ := launch_process_ok env i s c hi hc
      (by simpa using hf 0 (by omega))
    have hwf0 : s0.wf := by
      obtain ⟨ha, hb⟩ := hwf
      exact ⟨by rw [p0]; simpa using ha, by rw [c0]; exact hb⟩
    obtain ⟨s1, h1, hwf1, hact, hcfgs, hforks, htrace, hpids⟩ :=
      ih (i + 1) s0 hwf0 (by omega) (by
        intro j hj1 hj2
        rw [c0]
        exact hcfg j (by omega) (by omega)) (by
        intro j hj
        rw [f0]
        have := hf (j + 1) (by omega)
        have e : s.forks + 1 + j = s.forks + (j + 1) := by omega
        rw [e]
        exact this)
    refine ⟨s1, ?_, hwf1, ?_, ?_, ?_, ?_, ?_⟩
    · simp only [launch_loop, hstep]
      exact h1
    · rw [hact, a0]; push_cast; ring
    · rw [hcfgs, c0]
    · rw [hforks, f0]; ring
    · rw [htrace, t0, c0, f0]
      simp [launch_events, hc]
    · intro j
      rw [hpids j, p0, f0]
      have hlen : i < s.child_pids.length := by rw [hwf.1]; exact hi
      by_cases hji : j = i
      · subst hji
        have : ¬ (j + 1 ≤ j ∧ j < j + 1 + todo) := by omega
        simp [this, hlen]
      · by_cases hr : i + 1 ≤ j ∧ j < i + 1 + todo
        · have hr2 : i ≤ j ∧ j < i + (todo + 1) := by omega
          simp only [hr, hr2, and_self, if_true]
          congr 2
          omega
        · have hr2 : ¬ (i ≤ j ∧ j < i + (todo + 1)) := by omega
          simp only [hr, hr2, if_false]
          simp [List.getElem?_set, Ne.symm hji]

theorem launch_loop_ok (env : Env) (hf : ∀ n, 0 < env.fork n) :
    ∀ (todo i : Nat) (s : State), s.wf → i + todo ≤ MAX_PROCESSES →
      (∀ j, i ≤ j → j < i + todo → ∃ c, s.process_configs[j]? = some (some c)) →
      ∃ s1, launch_loop env todo i s = .ok s1 ∧ s1.wf ∧
        s1.active_processes_count = s.active_processes_count + todo ∧
        s1.process_configs = s.process_configs ∧
        s1.forks = s.forks + todo ∧
        s1.trace = s.trace ++ launch_events env s.process_configs todo i s.forks ∧
        ∀ j, s1.child_pids[j]? =
          if i ≤ j ∧ j < i + todo then some (env.fork (s.forks + (j - i)))
          else s.child_pids[j]? :=
  fun todo i s hwf hle hcfg =>
    launch_loop_ok_local env todo i s hwf hle hcfg (fun _ _ => hf _)

/-- A failed `fork` ends the program: `case -1` of `launch_process`. -/
theorem launch_process_fork_failure (env : Env) (i : Nat) (s : State) (c : process_config)
    (hi : i < MAX_PROCESSES) (hc : s.process_configs[i]? = some (some c))
    (hf : env.fork s.forks = -1) :
    launch_process env i s = .error .exit_failure := by
  simp [launch_process, array_get_ok _ _ _ hi hc, hf]

/-- The launch loop ends the program at the first `fork` that fails. -/
theorem launch_loop_fork_failure (env : Env) :
    ∀ (m todo i : Nat) (s : State), s.wf → i + todo ≤ MAX_PROCESSES → m < todo →
      (∀ j, i ≤ j → j < i + todo → ∃ c, s.process_configs[j]? = some (some c)) →
      (∀ j, j < m → 0 < env.fork (s.forks + j)) →
      env.fork (s.forks + m) = -1 →
      launch_loop env todo i s = .error .exit_failure := by
  intro m
  induction m with
  | zero =>
    intro todo i s _ hle hm hcfg _ hfail
    obtain ⟨todo, rfl⟩ : ∃ t, todo = t + 1 := ⟨todo - 1, by omega⟩
    obtain ⟨c, hc⟩ := hcfg i (le_refl i) (by omega)
    simp only [launch_loop, launch_process_fork_failure env i s c (by omega) hc
      (by simpa using hfail)]
  | succ m ih =>
    intro todo i s hwf hle hm hcfg hf hfail
    obtain ⟨todo, rfl⟩ : ∃ t, todo = t + 1 := ⟨todo - 1, by omega⟩
    obtain ⟨c, hc⟩ := hcfg i (le_refl i) (by omega)
    obtain ⟨s0, hstep, p0, a0, c0, f0, t0⟩ := launch_process_ok env i s c (by omega) hc
      (by simpa using hf 0 (by omega))
    have hwf0 : s0.wf := ⟨by rw [p0]; simpa using hwf.1, by rw [c0]; exact hwf.2⟩
    have h := ih todo (i + 1) s0 hwf0 (by omega) (by omega)
      (fun j h1 h2 => by rw [c0]; exact hcfg j (by omega) (by omega))
      (by
        intro j hj
        rw [f0]
        have := hf (j + 1) (by omega)
        have e : s.forks + 1 + j = s.forks + (j + 1) := by omega
        rw [e]
        exact this)
      (by
        rw [f0]
        have e : s.forks + 1 + m = s.forks + (m + 1) := by omega
        rw [e]
        exact hfail)
    simp only [launch_loop, hstep]
    exact h

/-! ## Loading the configuration -/

theorem load_loop_ok :
    ∀ (lines : List (List Char)) (n : Nat) (s : State),
      s.wf → n + lines.length ≤ MAX_PROCESSES →
      (∀ l ∈ lines, ∃ c, parse_config_line l = .ok c) →
      ∃ s1, load_loop lines n s = .ok (s1, n + lines.length) ∧ s1.wf ∧
        s1.child_pids = s.child_pids ∧
        s1.active_processes_count = s.active_processes_count ∧
        s1.forks = s.forks ∧ s1.trace = s.trace ∧
        (∀ j, j < n ∨ n + lines.length ≤ j → s1.process_configs[j]? = s.process_configs[j]?) ∧
        (∀ j, j < lines.length → ∃ c, (lines[j]?).map parse_config_line = some (.ok c) ∧
          s1.process_configs[n + j]? = some (some c)) := by
  intro lines
  induction lines with
  | nil =>
    intro n s hwf _ _
    exact ⟨s, rfl, hwf, rfl, rfl, rfl, rfl, fun _ _ => rfl, by simp⟩
  | cons line rest ih =>
    intro n s hwf hle hvalid
    obtain ⟨c, hc⟩ := hvalid line (by simp)
    have hn : n < MAX_PROCESSES := by simp at hle; omega
    obtain ⟨s1, h1, hwf1, hp, ha, hfk, ht, hout, hin⟩ :=
      ih (n + 1) { s with process_configs := s.process_configs.set n (some c) }
        ⟨hwf.1, by simpa using hwf.2⟩ (by simp at hle ⊢; omega)
        (fun l hl => hvalid l (by simp [hl]))
    refine ⟨s1, ?_, hwf1, hp, ha, hfk, ht, ?_, ?_⟩
    · simp only [load_loop, hc, array_set_ok _ _ _ hn, h1]
      simp
      omega
    · intro j hj
      rw [hout j (by simp at hj; omega)]
      have : n ≠ j := by simp at hj; omega
      simp [List.getElem?_set, this]
    · intro j hj
      cases j with
      | zero =>
        refine ⟨c, by simp [hc], ?_⟩
        rw [Nat.add_zero, hout n (by omega)]
        have hlen : n < s.process_configs.length := by rw [hwf.2]; exact hn
        simp [hlen]
      | succ j =>
        obtain ⟨c1, hc1, hs1⟩ := hin j (by simpa using hj)
        refine ⟨c1, by simpa using hc1, ?_⟩
        rw [← hs1]
        congr 1
        omega

/-- The load loop ends the program when it meets a line that is not accepted;
it never got to the launch loop. -/
theorem load_loop_refused :
    ∀ (lines : List (List Char)) (n : Nat) (s : State),
      (∃ l ∈ lines, ∀ c, parse_config_line l ≠ .ok c) →
      ∃ e, load_loop lines n s = .error e ∧
        (e = .exit_failure ∨ e = .undefined_behaviour) := by
  intro lines
  induction lines with
  | nil =>
    intro n s h
    obtain ⟨l, hl, _⟩ := h
    simp at hl
  | cons line rest ih =>
    intro n s h
    cases hp : parse_config_line line with
    | error e =>
      exact ⟨e, by simp [load_loop, hp], parse_config_line_error line e hp⟩
    | ok c =>
      by_cases hn : n < MAX_PROCESSES
      · have hrest : ∃ l ∈ rest, ∀ c, parse_config_line l ≠ .ok c := by
          obtain ⟨l, hl, hno⟩ := h
          rcases List.mem_cons.mp hl with h1 | h1
          · subst h1
            exact absurd hp (hno c)
          · exact ⟨l, h1, hno⟩
        obtain ⟨e, he, hk⟩ := ih (n + 1)
          { s with process_configs := s.process_configs.set n (some c) } hrest
        exact ⟨e, by simp only [load_loop, hp, array_set_ok _ _ _ hn, he], hk⟩
      · exact ⟨.undefined_behaviour, by simp [load_loop, hp, array_set, hn], Or.inr rfl⟩

/-- The load loop ends the program with the halt of the first line that is not
accepted, when the lines before it fit in `process_configs`. -/
theorem load_loop_first_refused :
    ∀ (pre : List (List Char)) (bad : List Char) (post : List (List Char)) (n : Nat)
      (s : State) (e : Halt),
      (∀ l ∈ pre, ∃ c, parse_config_line l = .ok c) →
      n + pre.length ≤ MAX_PROCESSES →
      parse_config_line bad = .error e →
      load_loop (pre ++ bad :: post) n s = .error e := by
  intro pre
  induction pre with
  | nil =>
    intro bad post n s e _ _ hbad
    simp [load_loop, hbad]
  | cons line rest ih =>
    intro bad post n s e hpre hle hbad
    obtain ⟨c, hc⟩ := hpre line (by simp)
    have hn : n < MAX_PROCESSES := by simp at hle; omega
    have h := ih bad post (n + 1)
      { s with process_configs := s.process_configs.set n (some c) } e
      (fun l hl => hpre l (List.mem_cons_of_mem _ hl)) (by simp at hle ⊢; omega) hbad
    simp only [List.cons_append, load_loop, hc, array_set_ok _ _ _ hn]
    exact h

/-- A line with a path that is not absolute is refused with `exit(EXIT_FAILURE)`
when its first token is not absolute, or it has between 2 and
`MAX_PROCESSES` tokens. -/
theorem parse_config_line_relative_exit (line : List Char) (hbad : has_relative_path line)
    (hcap : ¬ ((strtok_all line).getD 0 []).head? = some '/' ∨
      (2 ≤ (strtok_all line).length ∧ (strtok_all line).length ≤ MAX_PROCESSES)) :
    parse_config_line line = .error .exit_failure := by
  obtain ⟨hne, hrel⟩ := hbad
  unfold parse_config_line
  cases htoks : strtok_all line with
  | nil => exact absurd htoks hne
  | cons token more =>
    rw [htoks] at hrel hcap
    simp only [List.getD_cons_zero] at hrel hcap
    by_cases h0 : token.head? = some '/'
    · have hv0 : validate_absolute_path token = .ok () :=
        (validate_absolute_path_ok_iff _).mpr h0
      obtain ⟨hk2, hkmax⟩ : 2 ≤ (token :: more).length ∧
          (token :: more).length ≤ MAX_PROCESSES := by
        rcases hcap with h | h
        · exact absurd h0 h
        · exact h
      have hloop := append_loop_ok (token :: more) [] 0 (by omega)
      simp only [List.nil_append, Nat.zero_add] at hloop
      have hlt : ¬ ((token :: more).length < 2) := by omega
      simp only [hv0, hloop, if_neg hlt]
      by_cases hin : ((token :: more).getD ((token :: more).length - 2) []).head? = some '/'
      · have hvin := (validate_absolute_path_ok_iff _).mpr hin
        have hout : ¬ ((token :: more).getD ((token :: more).length - 1) []).head? =
            some '/' := by
          rcases hrel with h | h | h
          · exact absurd h0 h
          · exact absurd hin h.2
          · exact h
        have hvout : validate_absolute_path
            (strip_newline ((token :: more).getD ((token :: more).length - 1) [])) =
            .error .exit_failure := by
          have : ¬ (strip_newline ((token :: more).getD ((token :: more).length - 1)
              [])).head? = some '/' := fun hh => hout ((strip_newline_head _).mp hh)
          unfold validate_absolute_path
          rw [if_neg this]
        simp only [hvin, hvout]
      · have hvin : validate_absolute_path
            ((token :: more).getD ((token :: more).length - 2) []) = .error .exit_failure := by
          unfold validate_absolute_path
          rw [if_neg hin]
        simp only [hvin]
    · have hv0 : validate_absolute_path token = .error .exit_failure := by
        simp [validate_absolute_path, h0]
      simp only [hv0]

theorem valid_of_all (lines : List (List Char))
    (h : lines.all (fun l => (parse_config_line l).toBool) = true) :
    ∀ l ∈ lines, ∃ c, parse_config_line l = .ok c := by
  intro l hl
  have := List.all_eq_true.mp h l hl
  cases hp : parse_config_line l with
  | error e => simp [hp, Except.toBool] at this
  | ok c => exact ⟨c, rfl⟩

theorem State.init_wf : State.init.wf := by
  simp [State.wf, State.init]

/-- After `todo` launches from slot 0 in the initial table the handles are the
`fork` values followed by zeros. -/
theorem child_pids_of_pointwise (env : Env) (pids : List Int) (n f0 : Nat)
    (hn : n ≤ MAX_PROCESSES)
    (h : ∀ j, pids[j]? = if 0 ≤ j ∧ j < 0 + n then some (env.fork (f0 + (j - 0)))
      else (List.replicate MAX_PROCESSES (0 : Int))[j]?) :
    pids = (List.range n).map (fun j => env.fork (f0 + j)) ++
      List.replicate (MAX_PROCESSES - n) 0 := by
  apply List.ext_getElem?
  intro j
  rw [h j]
  by_cases hj : j < n
  · simp [hj, List.getElem?_append_left, List.getElem?_range]
  · have hj2 : ¬ (0 ≤ j ∧ j < 0 + n) := by omega
    rw [if_neg hj2, List.getElem?_append_right (by simp; omega)]
    simp only [List.length_map, List.length_range, List.getElem?_replicate]
    by_cases hm : j < MAX_PROCESSES
    · have : j - n < MAX_PROCESSES - n := by omega
      simp [hm, this]
    · have : ¬ (j - n < MAX_PROCESSES - n) := by omega
      simp [hm, this]

theorem running_slots_of_launched (env : Env) (hf : ∀ n, 0 < env.fork n) (n f0 k : Nat) :
    (((List.range n).map (fun j => env.fork (f0 + j)) ++
      List.replicate k (0 : Int)).filter (fun pid => pid != 0)).length = n := by
  rw [List.filter_append]
  have h1 : ((List.range n).map (fun j => env.fork (f0 + j))).filter (fun pid => pid != 0) =
      (List.range n).map (fun j => env.fork (f0 + j)) := by
    rw [List.filter_eq_self]
    intro a ha
    simp only [List.mem_map, List.mem_range] at ha
    obtain ⟨j, _, rfl⟩ := ha
    have := hf (f0 + j)
    simp
    omega
  have h2 : (List.replicate k (0 : Int)).filter (fun pid => pid != 0) = [] := by
    rw [List.filter_eq_nil_iff]
    intro a ha
    simp at ha
    simp [ha.2]
  rw [h1, h2]
  simp

theorem run_processes_start_ok_local (env : Env)
    (lines : List (List Char)) (s : State) (hwf : s.wf)
    (hN : lines.length ≤ MAX_PROCESSES)
    (hvalid : ∀ l ∈ lines, ∃ c, parse_config_line l = .ok c)
    (hf : ∀ j, j < lines.length → 0 < env.fork (s.forks + j)) :
    ∃ s1, run_processes_start env (some lines) s = .ok (s1, lines.length) ∧ s1.wf ∧
      s1.active_processes_count = s.active_processes_count + lines.length ∧
      s1.forks = s.forks + lines.length ∧
      s1.trace = s.trace ++ launch_events env s1.process_configs lines.length 0 s.forks ∧
      (∀ j, s1.child_pids[j]? =
        if 0 ≤ j ∧ j < 0 + lines.length then some (env.fork (s.forks + (j - 0)))
        else s.child_pids[j]?) ∧
      (∀ j, lines.length ≤ j → s1.process_configs[j]? = s.process_configs[j]?) ∧
      (∀ j, j < lines.length → ∃ c, (lines[j]?).map parse_config_line = some (.ok c) ∧
        s1.process_configs[j]? = some (some c)) := by
  obtain ⟨s0, h0, hwf0, hp0, ha0, hf0, ht0, hout0, hin0⟩ :=
    load_loop_ok lines 0 s hwf (by omega) hvalid
  simp only [Nat.zero_add] at h0 hout0 hin0
  obtain ⟨s1, h1, hwf1, ha1, hc1, hf1, ht1, hp1⟩ :=
    launch_loop_ok_local env lines.length 0 s0 hwf0 (by omega) (by
      intro j _ hj
      obtain ⟨c, _, hc⟩ := hin0 j (by omega)
      exact ⟨c, hc⟩) (by rw [hf0]; exact hf)
  refine ⟨s1, ?_, hwf1, ?_, ?_, ?_, ?_, ?_, ?_⟩
  · simp [run_processes_start, h0, h1]
  · rw [ha1, ha0]
  · rw [hf1, hf0]
  · rw [ht1, ht0, hc1, hf0]
  · intro j
    rw [hp1 j, hp0, hf0]
  · intro j hj
    rw [hc1]
    exact hout0 j (Or.inr hj)
  · intro j hj
    rw [hc1]
    exact hin0 j hj

theorem run_processes_start_ok (env : Env) (hf : ∀ n, 0 < env.fork n)
    (lines : List (List Char)) (s : State) (hwf : s.wf)
    (hN : lines.length ≤ MAX_PROCESSES)
    (hvalid : ∀ l ∈ lines, ∃ c, parse_config_line l = .ok c) :
    ∃ s1, run_processes_start env (some lines) s = .ok (s1, lines.length) ∧ s1.wf ∧
      s1.active_processes_count = s.active_processes_count + lines.length ∧
      s1.forks = s.forks + lines.length ∧
      s1.trace = s.trace ++ launch_events env s1.process_configs lines.length 0 s.forks ∧
      (∀ j, s1.child_pids[j]? =
        if 0 ≤ j ∧ j < 0 + lines.length then some (env.fork (s.forks + (j - 0)))
        else s.child_pids[j]?) ∧
      (∀ j, lines.length ≤ j → s1.process_configs[j]? = s.process_configs[j]?) ∧
      (∀ j, j < lines.length → ∃ c, (lines[j]?).map parse_config_line = some (.ok c) ∧
        s1.process_configs[j]? = some (some c)) :=
  run_processes_start_ok_local env lines s hwf hN hvalid (fun _ _ => hf _)

/-- The launch phase of `run_processes` ends the program at the first `fork`
that fails. -/
theorem run_processes_start_fork_failure (env : Env)
    (lines : List (List Char)) (s : State) (hwf : s.wf)
    (hN : lines.length ≤ MAX_PROCESSES)
    (hvalid : ∀ l ∈ lines, ∃ c, parse_config_line l = .ok c)
    (m : Nat) (hm : m < lines.length)
    (hf : ∀ j, j < m → 0 < env.fork (s.forks + j))
    (hfail : env.fork (s.forks + m) = -1) :
    run_processes_start env (some lines) s = .error .exit_failure := by
  obtain ⟨s0, h0, hwf0, _, _, hf0, _, _, hin0⟩ :=
    load_loop_ok lines 0 s hwf (by omega) hvalid
  simp only [Nat.zero_add] at h0 hin0
  have h1 := launch_loop_fork_failure env m lines.length 0 s0 hwf0 (by omega) hm (by
      intro j _ hj
      obtain ⟨c, _, hc⟩ := hin0 j (by omega)
      exact ⟨c, hc⟩) (by rw [hf0]; exact hf) (by rw [hf0]; exact hfail)
  simp [run_processes_start, h0, h1]

/-! ## The supervisor loop -/

/-- A notification that matches no handle of the scanned slots changes nothing. -/
theorem reap_loop_no_match (env : Env) (tpid status : Int) :
    ∀ (todo i : Nat) (s : State), s.child_pids.length = MAX_PROCESSES →
      i + todo ≤ MAX_PROCESSES →
      (∀ j, i ≤ j → j < i + todo → s.child_pids[j]? ≠ some tpid) →
      reap_loop env tpid status todo i s = .ok s := by
  intro todo
  induction todo with
  | zero => intro i s _ _ _; rfl
  | succ todo ih =>
    intro i s hlen hle hne
    have hi : i < MAX_PROCESSES := by omega
    have hil : i < s.child_pids.length := by omega
    have hget : s.child_pids[i]? = some s.child_pids[i] := List.getElem?_eq_getElem hil
    have hne0 : s.child_pids[i] ≠ tpid := by
      intro h
      exact hne i (le_refl i) (by omega) (by rw [hget, h])
    simp only [reap_loop, array_get_ok _ _ _ hi hget, if_neg hne0]
    exact ih (i + 1) s hlen (by omega) (fun j h1 h2 => hne j (by omega) (by omega))

/-- One iteration of the supervisor loop when the reported identity is recorded
in slot `i0` only and the relaunch's `fork` succeeds. -/
theorem reap_loop_unique (env : Env) (tpid status : Int) (i0 : Nat) (c : process_config) :
    ∀ (todo i : Nat) (s : State), s.wf → i + todo ≤ MAX_PROCESSES →
      i ≤ i0 → i0 < i + todo →
      s.child_pids[i0]? = some tpid →
      (∀ j, i ≤ j → j < i + todo → j ≠ i0 → s.child_pids[j]? ≠ some tpid) →
      s.process_configs[i0]? = some (some c) →
      0 < env.fork s.forks →
      ∃ s1, reap_loop env tpid status todo i s = .ok s1 ∧
        s1.child_pids = s.child_pids.set i0 (env.fork s.forks) ∧
        s1.active_processes_count = s.active_processes_count ∧
        s1.process_configs = s.process_configs ∧
        s1.forks = s.forks + 1 ∧
        s1.trace = s.trace ++ [Event.log_terminated i0 status,
          Event.forked i0 (env.fork s.forks),
          Event.log_started i0 c.argv.head? (env.fork s.forks)] := by
  intro todo
  induction todo with
  | zero => intro i s _ _ h1 h2; omega
  | succ todo ih =>
    intro i s hwf hle hlo hhi hrec huniq hcfg hfork
    have hi : i < MAX_PROCESSES := by omega
    have hil : i < s.child_pids.length := by rw [hwf.1]; exact hi
    have hget : s.child_pids[i]? = some s.child_pids[i] := List.getElem?_eq_getElem hil
    by_cases hii : i = i0
    · subst hii
      have hv : s.child_pids[i] = tpid := by
        rw [hget] at hrec
        exact Option.some.inj hrec
      obtain ⟨s0, hstep, p0, a0, c0, f0, t0⟩ := launch_process_ok env i
        { s with
          trace := s.trace ++ [Event.log_terminated i status]
          child_pids := s.child_pids.set i 0
          active_processes_count := s.active_processes_count - 1 } c hi hcfg hfork
      simp only at p0 a0 c0 f0 t0
      have hrest := reap_loop_no_match env tpid status todo (i + 1) s0
        (by rw [p0]; simpa using hwf.1) (by omega) (by
          intro j h1 h2
          rw [p0]
          have hji : i ≠ j := by omega
          simp only [List.set_set, List.getElem?_set, hji, if_false]
          exact huniq j (by omega) (by omega) (by omega))
      refine ⟨s0, ?_, ?_, ?_, c0, f0, ?_⟩
      · simp only [reap_loop, array_get_ok _ _ _ hi hget, hv, if_true,
          array_set_ok _ _ _ hi, hstep]
        exact hrest
      · rw [p0]; simp
      · rw [a0]; ring
      · rw [t0]; simp
    · have hne0 : s.child_pids[i] ≠ tpid := by
        intro h
        exact huniq i (le_refl i) (by omega) hii (by rw [hget, h])
      simp only [reap_loop, array_get_ok _ _ _ hi hget, if_neg hne0]
      exact ih (i + 1) s hwf (by omega) (by omega) (by omega) hrec
        (fun j h1 h2 h3 => huniq j (by omega) (by omega) h3) hcfg hfork

/-- One iteration of the supervisor loop when the reported identity is recorded
in slot `i0`, in no scanned slot before it, and the relaunch's `fork` fails:
the program ends with `exit(EXIT_FAILURE)`. -/
theorem reap_loop_fork_failure (env : Env) (tpid status : Int) (i0 : Nat)
    (c : process_config) :
    ∀ (todo i : Nat) (s : State), s.wf → i + todo ≤ MAX_PROCESSES →
      i ≤ i0 → i0 < i + todo →
      s.child_pids[i0]? = some tpid →
      (∀ j, i ≤ j → j < i0 → s.child_pids[j]? ≠ some tpid) →
      s.process_configs[i0]? = some (some c) →
      env.fork s.forks = -1 →
      reap_loop env tpid status todo i s = .error .exit_failure := by
  intro todo
  induction todo with
  | zero => intro i s _ _ h1 h2; omega
  | succ todo ih =>
    intro i s hwf hle hlo hhi hrec hbefore hcfg hfail
    have hi : i < MAX_PROCESSES := by omega
    have hil : i < s.child_pids.length := by rw [hwf.1]; exact hi
    have hget : s.child_pids[i]? = some s.child_pids[i] := List.getElem?_eq_getElem hil
    by_cases hii : i = i0
    · subst hii
      have hv : s.child_pids[i] = tpid := by
        rw [hget] at hrec
        exact Option.some.inj hrec
      have hstep := launch_process_fork_failure env i
        { s with
          trace := s.trace ++ [Event.log_terminated i status]
          child_pids := s.child_pids.set i 0
          active_processes_count := s.active_processes_count - 1 } c hi hcfg hfail
      simp only [reap_loop, array_get_ok _ _ _ hi hget, hv, if_true,
        array_set_ok _ _ _ hi, hstep]
    · have hne0 : s.child_pids[i] ≠ tpid := by
        intro h
        exact hbefore i (le_refl i) (by omega) (by rw [hget, h])
      simp only [reap_loop, array_get_ok _ _ _ hi hget, if_neg hne0]
      exact ih (i + 1) s hwf (by omega) (by omega) (by omega) hrec
        (fun j h1 h2 => hbefore j (by omega) h2) hcfg hfail

/-- One iteration of the supervisor loop, whatever identity is reported, keeps
the running count when every `fork` succeeds. -/
theorem reap_loop_count (env : Env) (hf : ∀ n, 0 < env.fork n) (tpid status : Int) :
    ∀ (todo i : Nat) (s : State), s.wf → i + todo ≤ MAX_PROCESSES →
      (∀ j, i ≤ j → j < i + todo → ∃ c, s.process_configs[j]? = some (some c)) →
      ∃ s1, reap_loop env tpid status todo i s = .ok s1 ∧ s1.wf ∧
        s1.active_processes_count = s.active_processes_count ∧
        s1.process_configs = s.process_configs := by
  intro todo
  induction todo with
  | zero => intro i s hwf _ _; exact ⟨s, rfl, hwf, rfl, rfl⟩
  | succ todo ih =>
    intro i s hwf hle hcfg
    have hi : i < MAX_PROCESSES := by omega
    have hil : i < s.child_pids.length := by rw [hwf.1]; exact hi
    have hget : s.child_pids[i]? = some s.child_pids[i] := List.getElem?_eq_getElem hil
    by_cases hm : s.child_pids[i] = tpid
    · obtain ⟨c, hc⟩ := hcfg i (le_refl i) (by omega)
      obtain ⟨s0, hstep, p0, a0, c0, f0, t0⟩ := launch_process_ok env i
        { s with
          trace := s.trace ++ [Event.log_terminated i status]
          child_pids := s.child_pids.set i 0
          active_processes_count := s.active_processes_count - 1 } c hi hc (hf _)
      simp only at p0 a0 c0 f0 t0
      obtain ⟨s1, h1, hwf1, a1, c1⟩ := ih (i + 1) s0
        ⟨by rw [p0]; simpa using hwf.1, by rw [c0]; exact hwf.2⟩ (by omega)
        (fun j h1 h2 => by rw [c0]; exact hcfg j (by omega) (by omega))
      refine ⟨s1, ?_, hwf1, ?_, ?_⟩
      · simp only [reap_loop, array_get_ok _ _ _ hi hget, hm, if_true,
          array_set_ok _ _ _ hi, hstep]
        exact h1
      · rw [a1, a0]; ring
      · rw [c1, c0]
    · obtain ⟨s1, h1, hwf1, a1, c1⟩ := ih (i + 1) s hwf (by omega)
        (fun j h1 h2 => hcfg j (by omega) (by omega))
      refine ⟨s1, ?_, hwf1, a1, c1⟩
      simp only [reap_loop, array_get_ok _ _ _ hi hget, if_neg hm]
      exact h1

theorem wait_loop_count (env : Env) (hf : ∀ n, 0 < env.fork n) (process_count : Nat)
    (hN : process_count ≤ MAX_PROCESSES) :
    ∀ (notifications : List (Int × Int)) (s : State), s.wf →
      (∀ j, j < process_count → ∃ c, s.process_configs[j]? = some (some c)) →
      0 < s.active_processes_count →
      ∃ s1, wait_loop env process_count notifications s = .ok s1 ∧
        s1.active_processes_count = s.active_processes_count := by
  intro notifications
  induction notifications with
  | nil =>
    intro s _ _ hpos
    exact ⟨s, by simp [wait_loop, hpos], rfl⟩
  | cons n rest ih =>
    intro s hwf hcfg hpos
    obtain ⟨tpid, status⟩ := n
    obtain ⟨s0, h0, hwf0, a0, c0⟩ := reap_loop_count env hf tpid status process_count 0 s hwf
      (by omega) (fun j _ h2 => hcfg j (by omega))
    obtain ⟨s1, h1, a1⟩ := ih s0 hwf0 (fun j hj => by rw [c0]; exact hcfg j hj)
      (by rw [a0]; exact hpos)
    refine ⟨s1, ?_, by rw [a1, a0]⟩
    simp only [wait_loop, hpos, if_true, h0]
    exact h1

/-! ## The restart -/

theorem kill_loop_ok :
    ∀ (todo i : Nat) (s : State), s.child_pids.length = MAX_PROCESSES →
      i + todo ≤ MAX_PROCESSES →
      kill_loop todo i s = .ok
        { s with trace := s.trace ++ sighup_events i ((s.child_pids.drop i).take todo) } := by
  intro todo
  induction todo with
  | zero => intro i s _ _; simp [kill_loop, sighup_events]
  | succ todo ih =>
    intro i s hlen hle
    have hi : i < MAX_PROCESSES := by omega
    have hil : i < s.child_pids.length := by omega
    have hget : s.child_pids[i]? = some s.child_pids[i] := List.getElem?_eq_getElem hil
    have hdrop : (s.child_pids.drop i).take (todo + 1) =
        s.child_pids[i] :: (s.child_pids.drop (i + 1)).take todo := by
      rw [List.drop_eq_getElem_cons hil, List.take_succ_cons]
    by_cases hz : s.child_pids[i] = 0
    · simp only [kill_loop, array_get_ok _ _ _ hi hget, hz, ne_eq, not_true_eq_false, if_false]
      rw [ih (i + 1) s hlen (by omega), hdrop, hz]
      simp [sighup_events]
    · simp only [kill_loop, array_get_ok _ _ _ hi hget, ne_eq, hz, not_false_eq_true, if_true]
      rw [ih (i + 1) { s with trace := s.trace ++
        [Event.killed s.child_pids[i], Event.log_sighup_kill i] } hlen (by omega), hdrop]
      simp [sighup_events, hz]

theorem sighup_events_mem (q : Int) (hq : q ≠ 0) :
    ∀ (pids : List Int) (i : Nat), q ∈ pids → Event.killed q ∈ sighup_events i pids := by
  intro pids
  induction pids with
  | nil => intro i h; simp at h
  | cons p ps ih =>
    intro i h
    by_cases hp : p = 0
    · have hq2 : q ∈ ps := by
        rcases List.mem_cons.mp h with h1 | h1
        · exact absurd (h1.trans hp) hq
        · exact h1
      simp only [sighup_events, hp, ne_eq, not_true_eq_false, if_false]
      exact ih (i + 1) hq2
    · simp only [sighup_events, ne_eq, hp, not_false_eq_true, if_true]
      rcases List.mem_cons.mp h with h1 | h1
      · simp [h1]
      · exact List.mem_cons_of_mem _ (List.mem_cons_of_mem _ (ih (i + 1) h1))

theorem sighup_events_zeros :
    ∀ (pids : List Int) (i : Nat), (∀ p ∈ pids, p = 0) → sighup_events i pids = [] := by
  intro pids
  induction pids with
  | nil => intro i _; rfl
  | cons p ps ih =>
    intro i h
    have hp : p = 0 := h p (by simp)
    simp only [sighup_events, hp, ne_eq, not_true_eq_false, if_false]
    exact ih (i + 1) (fun p hp => h p (List.mem_cons_of_mem _ hp))

theorem sighup_events_running :
    ∀ (running idle : List Int) (i : Nat), (∀ p ∈ running, p ≠ 0) → (∀ p ∈ idle, p = 0) →
      sighup_events i (running ++ idle) = kill_events i running := by
  intro running
  induction running with
  | nil =>
    intro idle i _ h
    simpa [kill_events] using sighup_events_zeros idle i h
  | cons p ps ih =>
    intro idle i hr hz
    have hp : p ≠ 0 := hr p (by simp)
    have := ih idle (i + 1) (fun p hp => hr p (List.mem_cons_of_mem _ hp)) hz
    simp [sighup_events, hp, kill_events, this]

theorem kill_loop_running (s : State) (n : Nat) (hwf : s.wf)
    (hrun : ∀ j, j < n → ∃ p, s.child_pids[j]? = some p ∧ p ≠ 0)
    (hidle : ∀ j, n ≤ j → ∀ p, s.child_pids[j]? = some p → p = 0) :
    kill_loop MAX_PROCESSES 0 s = .ok
      { s with trace := s.trace ++ kill_events 0 (s.child_pids.take n) } := by
  rw [kill_loop_ok MAX_PROCESSES 0 s hwf.1 (by omega)]
  have hall : (s.child_pids.drop 0).take MAX_PROCESSES = s.child_pids := by
    rw [List.drop_zero, List.take_of_length_le (by rw [hwf.1])]
  have hsplit : s.child_pids = s.child_pids.take n ++ s.child_pids.drop n :=
    (List.take_append_drop n s.child_pids).symm
  have h1 : ∀ p ∈ s.child_pids.take n, p ≠ 0 := by
    intro p hp
    obtain ⟨j, hj⟩ := List.mem_iff_getElem?.mp hp
    rw [List.getElem?_take] at hj
    by_cases hjn : j < n
    · rw [if_pos hjn] at hj
      obtain ⟨p1, hp1, hne⟩ := hrun j hjn
      rw [hp1] at hj
      rw [← Option.some.inj hj]
      exact hne
    · rw [if_neg hjn] at hj
      cases hj
  have h2 : ∀ p ∈ s.child_pids.drop n, p = 0 := by
    intro p hp
    obtain ⟨j, hj⟩ := List.mem_iff_getElem?.mp hp
    rw [List.getElem?_drop] at hj
    exact hidle (n + j) (by omega) p hj
  rw [hall]
  conv_lhs => rw [hsplit]
  rw [sighup_events_running _ _ 0 h1 h2]
  simp

theorem handle_sighup_start_ok (env : Env)
    (lines : List (List Char)) (s : State) (hwf : s.wf)
    (hN : lines.length ≤ MAX_PROCESSES)
    (hrun : ∀ j, j < lines.length → ∃ p, s.child_pids[j]? = some p ∧ p ≠ 0)
    (hidle : ∀ j, lines.length ≤ j → ∀ p, s.child_pids[j]? = some p → p = 0)
    (hcfg : ∀ j, j < lines.length → ∃ c, (lines[j]?).map parse_config_line = some (.ok c) ∧
      s.process_configs[j]? = some (some c))
    (hf : ∀ j, j < lines.length → 0 < env.fork (s.forks + j)) :
    ∃ s1, handle_sighup_start env (some lines) s = .ok (s1, lines.length) ∧
      s1.trace = s.trace ++ kill_events 0 (s.child_pids.take lines.length) ++
        [Event.log_restart] ++ launch_events env s.process_configs lines.length 0 s.forks ∧
      s1.process_configs = s.process_configs ∧
      s1.active_processes_count = s.active_processes_count + lines.length ∧
      (∀ j, j < lines.length → s1.child_pids[j]? = some (env.fork (s.forks + j))) := by
  have hvalid : ∀ l ∈ lines, ∃ c, parse_config_line l = .ok c := by
    intro l hl
    obtain ⟨j, hj⟩ := List.mem_iff_getElem?.mp hl
    have hjl : j < lines.length := by
      by_contra hge
      rw [List.getElem?_eq_none (by omega)] at hj
      cases hj
    obtain ⟨c, hc, _⟩ := hcfg j hjl
    rw [hj] at hc
    exact ⟨c, by simpa using hc⟩
  obtain ⟨s1, h1, _, a1, _, t1, p1, cout, cin⟩ := run_processes_start_ok_local env lines
    { s with trace := s.trace ++ kill_events 0 (s.child_pids.take lines.length) ++
        [Event.log_restart] } hwf hN hvalid hf
  simp only at a1 t1 p1 cout cin
  have hcfgs : s1.process_configs = s.process_configs := by
    apply List.ext_getElem?
    intro j
    by_cases hj : j < lines.length
    · obtain ⟨c, hc, hs⟩ := hcfg j hj
      obtain ⟨c1, hc1, hs1⟩ := cin j hj
      rw [hc] at hc1
      have : c = c1 := by
        have := Option.some.inj hc1
        exact Except.ok.inj this
      rw [hs, hs1, this]
    · exact cout j (by omega)
  refine ⟨s1, ?_, ?_, hcfgs, a1, ?_⟩
  · simp only [handle_sighup_start, kill_loop_running s lines.length hwf hrun hidle]
    simpa using h1
  · rw [t1, hcfgs]
  · intro j hj
    rw [p1 j]
    simp [hj]

/-- A restart ends the program at the first `fork` of the relaunch that fails. -/
theorem handle_sighup_start_fork_failure (env : Env)
    (lines : List (List Char)) (s : State) (hwf : s.wf)
    (hN : lines.length ≤ MAX_PROCESSES)
    (hrun : ∀ j, j < lines.length → ∃ p, s.child_pids[j]? = some p ∧ p ≠ 0)
    (hidle : ∀ j, lines.length ≤ j → ∀ p, s.child_pids[j]? = some p → p = 0)
    (hcfg : ∀ j, j < lines.length → ∃ c, (lines[j]?).map parse_config_line = some (.ok c) ∧
      s.process_configs[j]? = some (some c))
    (m : Nat) (hm : m < lines.length)
    (hf : ∀ j, j < m → 0 < env.fork (s.forks + j))
    (hfail : env.fork (s.forks + m) = -1) :
    handle_sighup_start env (some lines) s = .error .exit_failure := by
  have hvalid : ∀ l ∈ lines, ∃ c, parse_config_line l = .ok c := by
    intro l hl
    obtain ⟨j, hj⟩ := List.mem_iff_getElem?.mp hl
    have hjl : j < lines.length := by
      by_contra hge
      rw [List.getElem?_eq_none (by omega)] at hj
      cases hj
    obtain ⟨c, hc, _⟩ := hcfg j hjl
    rw [hj] at hc
    exact ⟨c, by simpa using hc⟩
  have h := run_processes_start_fork_failure env lines
    { s with trace := s.trace ++ kill_events 0 (s.child_pids.take lines.length) ++
        [Event.log_restart] } hwf hN hvalid m hm hf hfail
  simp only [handle_sighup_start, kill_loop_running s lines.length hwf hrun hidle]
  simpa using h

/-! ## What a completed step leaves behind -/

theorem launch_process_inv (env : Env) (i : Nat) (s s1 : State)
    (h : launch_process env i s = .ok s1) :
    i < MAX_PROCESSES ∧ s1.child_pids = s.child_pids.set i (env.fork s.forks) ∧
      s1.forks = s.forks + 1 ∧ ∀ e ∈ s.trace, e ∈ s1.trace := by
  unfold launch_process at h
  split at h
  · cases h
  · cases h
  · simp only at h
    split at h
    · cases h
    · split at h
      · cases h
      · split at h
        · cases h
        · rename_i pids hset
          unfold array_set at hset
          split at hset
          · rename_i hi
            simp only [Except.ok.injEq] at hset h
            subst hset
            subst h
            refine ⟨hi, rfl, rfl, ?_⟩
            intro e he
            simp [he]
          · cases hset

theorem launch_loop_inv (env : Env) (q : Int) :
    ∀ (todo i : Nat) (s s1 : State), launch_loop env todo i s = .ok s1 →
      s.child_pids.length = MAX_PROCESSES →
      (∀ n, s.forks ≤ n → env.fork n ≠ q) →
      s1.child_pids.length = MAX_PROCESSES ∧ s.forks ≤ s1.forks ∧
        (todo = 0 ∨ i + todo ≤ MAX_PROCESSES) ∧
        (∀ e ∈ s.trace, e ∈ s1.trace) ∧
        (∀ j, (i ≤ j ∧ j < i + todo) ∨ s.child_pids[j]? ≠ some q →
          s1.child_pids[j]? ≠ some q) := by
  intro todo
  induction todo with
  | zero =>
    intro i s s1 h hlen _
    simp only [launch_loop, Except.ok.injEq] at h
    subst h
    refine ⟨hlen, le_refl _, Or.inl rfl, fun e he => he, ?_⟩
    intro j hj
    rcases hj with hj | hj
    · omega
    · exact hj
  | succ todo ih =>
    intro i s s1 h hlen hfresh
    simp only [launch_loop] at h
    split at h
    · cases h
    · rename_i s0 h0
      obtain ⟨hi, p0, f0, t0⟩ := launch_process_inv env i s s0 h0
      obtain ⟨hlen1, hf1, hb1, ht1, hq1⟩ := ih (i + 1) s0 s1 h
        (by rw [p0]; simpa using hlen)
        (fun n hn => hfresh n (by omega))
      refine ⟨hlen1, by omega, Or.inr (by omega), fun e he => ht1 e (t0 e he), ?_⟩
      intro j hj
      apply hq1 j
      by_cases hr : i + 1 ≤ j ∧ j < i + 1 + todo
      · exact Or.inl hr
      · right
        rw [p0, List.getElem?_set]
        by_cases hji : i = j
        · rw [if_pos hji]
          split
          · intro hc
            exact hfresh s.forks (le_refl _) (Option.some.inj hc)
          · simp
        · rw [if_neg hji]
          rcases hj with hj | hj
          · omega
          · exact hj

theorem reap_loop_inv (env : Env) (q tpid status : Int) :
    ∀ (todo i : Nat) (s s1 : State), reap_loop env tpid status todo i s = .ok s1 →
      s.child_pids.length = MAX_PROCESSES →
      (∀ n, s.forks ≤ n → env.fork n ≠ q) →
      s1.child_pids.length = MAX_PROCESSES ∧ s.forks ≤ s1.forks ∧
        (∀ j : Nat, s.child_pids[j]? ≠ some q → s1.child_pids[j]? ≠ some q) := by
  intro todo
  induction todo with
  | zero =>
    intro i s s1 h hlen _
    simp only [reap_loop, Except.ok.injEq] at h
    subst h
    exact ⟨hlen, le_refl _, fun _ hj => hj⟩
  | succ todo ih =>
    intro i s s1 h hlen hfresh
    simp only [reap_loop] at h
    split at h
    · cases h
    · split at h
      · split at h
        · cases h
        · rename_i pids hset
          unfold array_set at hset
          split at hset
          · simp only [Except.ok.injEq] at hset
            subst hset
            split at h
            · cases h
            · rename_i s0 h0
              obtain ⟨_, p0, f0, _⟩ := launch_process_inv env i _ s0 h0
              simp only at p0 f0
              obtain ⟨hlen1, hf1, hq1⟩ := ih (i + 1) s0 s1 h
                (by rw [p0]; simpa using hlen)
                (fun n hn => hfresh n (by omega))
              refine ⟨hlen1, by omega, ?_⟩
              intro j hj
              apply hq1 j
              rw [p0, List.set_set, List.getElem?_set]
              by_cases hji : i = j
              · rw [if_pos hji]
                split
                · intro hc
                  exact hfresh s.forks (le_refl _) (Option.some.inj hc)
                · simp
              · rw [if_neg hji]
                exact hj
          · cases hset
      · exact ih (i + 1) s s1 h hlen hfresh

theorem wait_loop_inv (env : Env) (q : Int) (process_count : Nat) :
    ∀ (notifications : List (Int × Int)) (s s1 : State),
      wait_loop env process_count notifications s = .ok s1 →
      s.child_pids.length = MAX_PROCESSES →
      (∀ n, s.forks ≤ n → env.fork n ≠ q) →
      s1.child_pids.length = MAX_PROCESSES ∧
        (∀ j : Nat, s.child_pids[j]? ≠ some q → s1.child_pids[j]? ≠ some q) := by
  intro notifications
  induction notifications with
  | nil =>
    intro s s1 h hlen _
    simp only [wait_loop] at h
    split at h
    · simp only [Except.ok.injEq] at h
      subst h
      exact ⟨hlen, fun _ hj => hj⟩
    · cases h
  | cons n rest ih =>
    intro s s1 h hlen hfresh
    obtain ⟨tpid, status⟩ := n
    simp only [wait_loop] at h
    split at h
    · split at h
      · cases h
      · rename_i s0 h0
        obtain ⟨hlen0, hf0, hq0⟩ := reap_loop_inv env q tpid status process_count 0 s s0 h0
          hlen hfresh
        obtain ⟨hlen1, hq1⟩ := ih s0 s1 h hlen0 (fun n hn => hfresh n (by omega))
        exact ⟨hlen1, fun j hj => hq1 j (hq0 j hj)⟩
    · cases h

theorem load_loop_inv :
    ∀ (lines : List (List Char)) (n : Nat) (s s1 : State) (n1 : Nat),
      load_loop lines n s = .ok (s1, n1) →
      s1.child_pids = s.child_pids ∧ s1.forks = s.forks ∧ s1.trace = s.trace ∧
        s1.active_processes_count = s.active_processes_count := by
  intro lines
  induction lines with
  | nil =>
    intro n s s1 n1 h
    simp only [load_loop, Except.ok.injEq, Prod.mk.injEq] at h
    obtain ⟨h, _⟩ := h
    subst h
    exact ⟨rfl, rfl, rfl, rfl⟩
  | cons line rest ih =>
    intro n s s1 n1 h
    simp only [load_loop] at h
    split at h
    · cases h
    · split at h
      · cases h
      · obtain ⟨hp, hf, ht, ha⟩ := ih _ _ _ _ h
        exact ⟨hp, hf, ht, ha⟩

theorem handle_sighup_start_inv (env : Env) (q : Int)
    (config_file : Option (List (List Char))) (s s1 : State) (process_count : Nat)
    (h : handle_sighup_start env config_file s = .ok (s1, process_count))
    (hlen : s.child_pids.length = MAX_PROCESSES)
    (hfresh : ∀ n, s.forks ≤ n → env.fork n ≠ q) :
    s1.child_pids.length = MAX_PROCESSES ∧ process_count ≤ MAX_PROCESSES ∧
      s.forks ≤ s1.forks ∧
      (∀ j, j < process_count → s1.child_pids[j]? ≠ some q) ∧
      (∀ e ∈ sighup_events 0 s.child_pids, e ∈ s1.trace) := by
  have hall : (s.child_pids.drop 0).take MAX_PROCESSES = s.child_pids := by
    rw [List.drop_zero, List.take_of_length_le (by rw [hlen])]
  simp only [handle_sighup_start, kill_loop_ok MAX_PROCESSES 0 s hlen (by omega), hall,
    run_processes_start] at h
  split at h
  · cases h
  · split at h
    · cases h
    · rename_i lines _ s0 n0 hload
      split at h
      · cases h
      · rename_i s2 hlaunch
        simp only [Except.ok.injEq, Prod.mk.injEq] at h
        obtain ⟨h1, h2⟩ := h
        subst h1
        subst h2
        obtain ⟨p0, f0, t0, _⟩ := load_loop_inv lines 0 _ s0 n0 hload
        simp only at p0 f0 t0
        obtain ⟨hlen2, hf2, hb2, ht2, hq2⟩ := launch_loop_inv env q n0 0 s0 s2 hlaunch
          (by rw [p0]; exact hlen) (fun n hn => hfresh n (by omega))
        refine ⟨hlen2, by omega, by omega, fun j hj => hq2 j (Or.inl (by omega)), ?_⟩
        intro e he
        apply ht2
        rw [t0]
        simp [he]

/-! ## The claims -/

/-- C1: for a valid configuration of `N` specifications (every line is
accepted by `parse_config_line` and `N` is within the fixed maximum), from
the initial state and with every process creation succeeding, the launch
phase of `run_processes` completes with `active_processes_count = N`, with
every slot `0..N-1` holding the non-zero handle `fork` returned for it, and
with exactly `N` slots marked running. -/
theorem initial_launch_count (env : Env) (lines : List (List Char))
    (hfork : ∀ n, 0 < env.fork n)
    (hN : lines.length ≤ MAX_PROCESSES)
    (hvalid : ∀ l ∈ lines, ∃ c, parse_config_line l = .ok c) :
    ∃ s, run_processes_start env (some lines) State.init = .ok (s, lines.length) ∧
      s.active_processes_count = lines.length ∧
      (∀ i, i < lines.length →
        s.child_pids[i]? = some (env.fork i) ∧ env.fork i ≠ 0) ∧
      running_slots s = lines.length := by
  obtain ⟨s, h, hwf, ha, _, _, hp, _, _⟩ :=
    run_processes_start_ok env hfork lines State.init State.init_wf hN hvalid
  refine ⟨s, h, by simpa [State.init] using ha, ?_, ?_⟩
  · intro i hi
    have h0 := hfork i
    refine ⟨?_, by omega⟩
    rw [hp i]
    simp [hi, State.init]
  · have hlist := child_pids_of_pointwise env s.child_pids lines.length 0 hN
      (by simpa [State.init] using hp)
    unfold running_slots
    rw [hlist]
    exact running_slots_of_launched env hfork _ _ _

/-- Witness of C1: the two-line configuration of the specification. -/
theorem initial_launch_count_witness :
    ∃ s, run_processes_start env100 (some cfg2) State.init = .ok (s, cfg2.length) ∧
      s.active_processes_count = cfg2.length ∧
      (∀ i, i < cfg2.length →
        s.child_pids[i]? = some (env100.fork i) ∧ env100.fork i ≠ 0) ∧
      running_slots s = cfg2.length :=
  initial_launch_count env100 cfg2 (by intro n; simp [env100]; omega) (by decide)
    (valid_of_all cfg2 (by decide))

/-- C10: for a valid configuration with at least one specification, every
process creation succeeding, and every sequence of termination
notifications, `run_processes` started in the initial state never reaches
`exit(EXIT_SUCCESS)`: having handled the notifications it is blocked in
`waitpid` with the loop condition true, the running count being the number
of specifications. -/
theorem supervisor_loop_never_exits (env : Env) (lines : List (List Char))
    (notifications : List (Int × Int))
    (hfork : ∀ n, 0 < env.fork n)
    (hN : lines.length ≤ MAX_PROCESSES)
    (hvalid : ∀ l ∈ lines, ∃ c, parse_config_line l = .ok c)
    (hpos : 1 ≤ lines.length) :
    ∃ s, run_processes env (some lines) notifications State.init = .ok s ∧
      s.active_processes_count = lines.length ∧ 0 < s.active_processes_count := by
  obtain ⟨s0, h0, hwf0, a0, _, _, _, _, hin0⟩ :=
    run_processes_start_ok env hfork lines State.init State.init_wf hN hvalid
  have ha : s0.active_processes_count = lines.length := by simpa [State.init] using a0
  have hpos0 : 0 < s0.active_processes_count := by rw [ha]; exact_mod_cast hpos
  obtain ⟨s1, h1, a1⟩ := wait_loop_count env hfork lines.length hN notifications s0 hwf0
    (fun j hj => by
      obtain ⟨c, _, hc⟩ := hin0 j hj
      exact ⟨c, hc⟩) hpos0
  refine ⟨s1, ?_, by rw [a1, ha], by rw [a1]; exact hpos0⟩
  simp only [run_processes, h0]
  exact h1

/-- Witness of C10: the two-line configuration and three notifications. -/
theorem supervisor_loop_never_exits_witness :
    ∃ s, run_processes env100 (some cfg2) [(100, 0), (5, 1), (101, 9)] State.init = .ok s ∧
      s.active_processes_count = cfg2.length ∧ 0 < s.active_processes_count :=
  supervisor_loop_never_exits env100 cfg2 [(100, 0), (5, 1), (101, 9)]
    (by intro n; simp [env100]; omega) (by decide) (valid_of_all cfg2 (by decide)) (by decide)

/-- In `state_pair` the slots 0 and 1 hold a handle. -/
theorem state_pair_running :
    ∀ j, j < cfg2.length → ∃ p, state_pair.child_pids[j]? = some p ∧ p ≠ 0 := by
  intro j hj
  have h2 : j < 2 := by simpa [cfg2] using hj
  interval_cases j
  · exact ⟨100, by decide, by decide⟩
  · exact ⟨101, by decide, by decide⟩

/-- In `state_pair` the slots from 2 on hold 0. -/
theorem state_pair_idle :
    ∀ j, cfg2.length ≤ j → ∀ p, state_pair.child_pids[j]? = some p → p = 0 := by
  have h : ∀ p ∈ state_pair.child_pids.drop cfg2.length, p = 0 := by decide
  intro j hj p hp
  apply h p
  rw [List.mem_iff_getElem?]
  refine ⟨j - cfg2.length, ?_⟩
  rw [List.getElem?_drop]
  have : cfg2.length + (j - cfg2.length) = j := by omega
  rw [this]
  exact hp

/-- The table of `state_pair` holds the records of the lines of `cfg2`. -/
theorem state_pair_configs :
    ∀ j, j < cfg2.length → ∃ c, (cfg2[j]?).map parse_config_line = some (.ok c) ∧
      state_pair.process_configs[j]? = some (some c) := by
  intro j hj
  have h2 : j < 2 := by simpa [cfg2] using hj
  interval_cases j
  · exact ⟨spec_cat, by decide, by decide⟩
  · exact ⟨spec_echo, by decide, by decide⟩

/-- C2, as amended: let `waitpid` report, with any status, the identity
recorded in slot `i < N` and in no other scanned slot.  If the `fork` of the
relaunch succeeds, the iteration of the supervisor loop logs the
termination and launches slot `i` once and no other slot; afterwards the
specifications are unchanged, slot `i` holds the new handle and the running
count is what it was.  If that `fork` fails (returns -1), the iteration ends
the program with `exit(EXIT_FAILURE)`. -/
theorem iteration_relaunches_once (env : Env) (terminated_pid status : Int)
    (process_count i : Nat) (s : State) (c : process_config)
    (hwf : s.wf) (hN : process_count ≤ MAX_PROCESSES) (hi : i < process_count)
    (hrec : s.child_pids[i]? = some terminated_pid)
    (huniq : ∀ j, j < process_count → j ≠ i → s.child_pids[j]? ≠ some terminated_pid)
    (hcfg : s.process_configs[i]? = some (some c)) :
    (0 < env.fork s.forks →
      ∃ s1, reap_loop env terminated_pid status process_count 0 s = .ok s1 ∧
        s1.trace = s.trace ++ [Event.log_terminated i status,
          Event.forked i (env.fork s.forks),
          Event.log_started i c.argv.head? (env.fork s.forks)] ∧
        s1.process_configs = s.process_configs ∧
        s1.child_pids = s.child_pids.set i (env.fork s.forks) ∧
        s1.active_processes_count = s.active_processes_count) ∧
    (env.fork s.forks = -1 →
      reap_loop env terminated_pid status process_count 0 s = .error .exit_failure) := by
  constructor
  · intro hfork
    obtain ⟨s1, h1, p1, a1, c1, _, t1⟩ :=
      reap_loop_unique env terminated_pid status i c process_count 0 s hwf (by omega)
        (by omega) (by omega) hrec (fun j _ h2 h3 => huniq j (by omega) h3) hcfg hfork
    exact ⟨s1, h1, t1, c1, p1, a1⟩
  · intro hfail
    exact reap_loop_fork_failure env terminated_pid status i c process_count 0 s hwf
      (by omega) (by omega) (by omega) hrec
      (fun j _ h2 => huniq j (by omega) (by omega)) hcfg hfail

/-- Witness of C2: of the two slots of `state_pair`, slot 1 holds process 101,
which exits with status 7; the relaunch's `fork` returns 102, or fails. -/
theorem iteration_relaunches_once_witness :
    (∃ s1, reap_loop env100 101 7 2 0 state_pair = .ok s1 ∧
      s1.trace = state_pair.trace ++ [Event.log_terminated 1 7,
        Event.forked 1 102, Event.log_started 1 (some "/bin/echo".toList) 102] ∧
      s1.process_configs = state_pair.process_configs ∧
      s1.child_pids = [100, 102, 0, 0, 0, 0, 0, 0, 0, 0] ∧
      s1.active_processes_count = 2) ∧
    reap_loop (env_fork_limit 2) 101 7 2 0 state_pair = .error .exit_failure :=
  ⟨(iteration_relaunches_once env100 101 7 2 1 state_pair spec_echo (by decide) (by decide)
      (by decide) (by decide)
      (by
        intro j h1 h2
        have h0 : j = 0 := by omega
        subst h0
        decide)
      (by decide)).1 (by decide),
   (iteration_relaunches_once (env_fork_limit 2) 101 7 2 1 state_pair spec_echo (by decide)
      (by decide) (by decide) (by decide)
      (by
        intro j h1 h2
        have h0 : j = 0 := by omega
        subst h0
        decide)
      (by decide)).2 (by decide)⟩

/-- C2 as stated fails when the relaunch's `fork` fails: after the launch phase
on `cfg1` slot 0 holds process 100; when `waitpid` reports 100 and `fork`
returns -1, the iteration ends in `exit(EXIT_FAILURE)`: no state with a new
handle in slot 0 is produced.  The same happens for slot 1 of `state_pair`. -/
theorem iteration_fork_failure :
    run_processes_start (env_fork_limit 1) (some cfg1) State.init = .ok (state_one, 1) ∧
      state_one.child_pids[0]? = some 100 ∧
      reap_loop (env_fork_limit 1) 100 0 1 0 state_one = .error .exit_failure ∧
      run_processes_start (env_fork_limit 2) (some cfg2) State.init = .ok (state_pair, 2) ∧
      state_pair.child_pids[1]? = some 101 ∧
      reap_loop (env_fork_limit 2) 101 0 2 0 state_pair = .error .exit_failure := by
  decide

/-- C3, as amended: let `handle_sighup` run while exactly the slots `0..N-1`
hold a handle and the configuration file still has the `N` lines the table
was loaded from.  Its loop sends one `kill` to each of the `N` recorded
handles, in slot order.  If the `N` calls to `fork` of the relaunch succeed,
it then launches the slots `0..N-1` once each, in order, and the table of
specifications is the same after as before.  If one of these calls fails
(returns -1, the earlier ones having succeeded), it ends the program with
`exit(EXIT_FAILURE)`. -/
theorem restart_kills_and_relaunches (env : Env) (lines : List (List Char)) (s : State)
    (hwf : s.wf) (hN : lines.length ≤ MAX_PROCESSES)
    (hrun : ∀ j, j < lines.length → ∃ p, s.child_pids[j]? = some p ∧ p ≠ 0)
    (hidle : ∀ j, lines.length ≤ j → ∀ p, s.child_pids[j]? = some p → p = 0)
    (hcfg : ∀ j, j < lines.length → ∃ c, (lines[j]?).map parse_config_line = some (.ok c) ∧
      s.process_configs[j]? = some (some c)) :
    kill_loop MAX_PROCESSES 0 s = .ok
      { s with trace := s.trace ++ kill_events 0 (s.child_pids.take lines.length) } ∧
    ((∀ j, j < lines.length → 0 < env.fork (s.forks + j)) →
      ∃ s1, handle_sighup_start env (some lines) s = .ok (s1, lines.length) ∧
        s1.trace = s.trace ++ kill_events 0 (s.child_pids.take lines.length) ++
          [Event.log_restart] ++ launch_events env s.process_configs lines.length 0 s.forks ∧
        s1.process_configs = s.process_configs ∧
        (∀ j, j < lines.length → s1.child_pids[j]? = some (env.fork (s.forks + j)))) ∧
    (∀ m, m < lines.length → (∀ j, j < m → 0 < env.fork (s.forks + j)) →
      env.fork (s.forks + m) = -1 →
      handle_sighup_start env (some lines) s = .error .exit_failure) := by
  refine ⟨kill_loop_running s lines.length hwf hrun hidle, ?_, ?_⟩
  · intro hfork
    obtain ⟨s1, h1, t1, c1, _, p1⟩ :=
      handle_sighup_start_ok env lines s hwf hN hrun hidle hcfg hfork
    exact ⟨s1, h1, t1, c1, p1⟩
  · intro m hm hf hfail
    exact handle_sighup_start_fork_failure env lines s hwf hN hrun hidle hcfg m hm hf hfail

/-- Witness of C3: a restart in `state_pair` with the two-line configuration;
the two calls to `fork` return 102 and 103, or the second one fails. -/
theorem restart_kills_and_relaunches_witness :
    kill_loop MAX_PROCESSES 0 state_pair = .ok { state_pair with
      trace := state_pair.trace ++ [Event.killed 100, Event.log_sighup_kill 0,
        Event.killed 101, Event.log_sighup_kill 1] } ∧
    (∃ s1, handle_sighup_start env100 (some cfg2) state_pair = .ok (s1, 2) ∧
      s1.trace = state_pair.trace ++ [Event.killed 100, Event.log_sighup_kill 0,
        Event.killed 101, Event.log_sighup_kill 1] ++ [Event.log_restart] ++
        [Event.forked 0 102, Event.log_started 0 (some "/bin/cat".toList) 102,
         Event.forked 1 103, Event.log_started 1 (some "/bin/echo".toList) 103] ∧
      s1.process_configs = state_pair.process_configs ∧
      (∀ j, j < cfg2.length → s1.child_pids[j]? = some (env100.fork (state_pair.forks + j)))) ∧
    handle_sighup_start (env_fork_limit 3) (some cfg2) state_pair = .error .exit_failure :=
  ⟨(restart_kills_and_relaunches env100 cfg2 state_pair (by decide) (by decide)
      state_pair_running state_pair_idle state_pair_configs).1,
   (restart_kills_and_relaunches env100 cfg2 state_pair (by decide) (by decide)
      state_pair_running state_pair_idle state_pair_configs).2.1
      (by intro j _; simp [env100]; omega),
   (restart_kills_and_relaunches (env_fork_limit 3) cfg2 state_pair (by decide) (by decide)
      state_pair_running state_pair_idle state_pair_configs).2.2 1 (by decide)
      (by
        intro j hj
        have h0 : j = 0 := by omega
        subst h0
        decide)
      (by decide)⟩

/-- C3 as stated fails when a `fork` of the relaunch fails: in `state_one`
(slot 0 running process 100, configuration `cfg1` unchanged) the restart
kills process 100 and then ends in `exit(EXIT_FAILURE)` without a launch. -/
theorem restart_fork_failure :
    run_processes_start (env_fork_limit 1) (some cfg1) State.init = .ok (state_one, 1) ∧
      kill_loop MAX_PROCESSES 0 state_one = .ok { state_one with
        trace := state_one.trace ++ [Event.killed 100, Event.log_sighup_kill 0] } ∧
      handle_sighup_start (env_fork_limit 1) (some cfg1) state_one = .error .exit_failure := by
  decide

/-- C6 fails on the code: after the launch phase on `cfg1` (slot 0 running,
count 1) a restart leaves `active_processes_count = 2` while one slot is
marked running: `handle_sighup` neither clears `child_pids` nor resets the
count before `run_processes` counts the relaunch. -/
theorem restart_double_counts :
    run_processes_start env100 (some cfg1) State.init = .ok (state_one, 1) ∧
      state_one.active_processes_count = 1 ∧ running_slots state_one = 1 ∧
      (handle_sighup_start env100 (some cfg1) state_one).map
        (fun r => (r.1.active_processes_count, running_slots r.1, r.1.child_pids)) =
        .ok (2, 1, [101, 0, 0, 0, 0, 0, 0, 0, 0, 0]) := by
  decide

/-- C7: let a restart (`handle_sighup` up to the end of its launch loop)
complete from a state in which the handle `q` is recorded, so that `q` is
killed by it, and let no `fork` from then on return `q` (the identity of a
process not yet reaped is not given to a new one).  Then in every state the
supervisor loop reaches afterwards, a notification carrying `q` is ignored:
the iteration returns the state as it was, with no launch, no change of a
handle or of the running count. -/
theorem stale_notification_ignored (env : Env) (config_file : Option (List (List Char)))
    (s s1 s2 : State) (process_count : Nat) (q status : Int)
    (notifications : List (Int × Int))
    (hwf : s.wf) (hq : q ∈ s.child_pids) (hq0 : q ≠ 0)
    (hrestart : handle_sighup_start env config_file s = .ok (s1, process_count))
    (hfresh : ∀ n, s.forks ≤ n → env.fork n ≠ q)
    (hlater : wait_loop env process_count notifications s1 = .ok s2) :
    Event.killed q ∈ s1.trace ∧
      reap_loop env q status process_count 0 s2 = .ok s2 := by
  obtain ⟨hlen1, hN, hf1, hq1, ht1⟩ :=
    handle_sighup_start_inv env q config_file s s1 process_count hrestart hwf.1 hfresh
  obtain ⟨hlen2, hq2⟩ := wait_loop_inv env q process_count notifications s1 s2 hlater hlen1
    (fun n hn => hfresh n (by omega))
  refine ⟨ht1 _ (sighup_events_mem q hq0 s.child_pids 0 hq), ?_⟩
  exact reap_loop_no_match env q status process_count 0 s2 hlen2 (by omega)
    (fun j _ hj => hq2 j (hq1 j (by omega)))

/-- Witness of C7: process 100 of `state_one` is killed by a restart; its
termination is reported after an unrelated notification. -/
theorem stale_notification_ignored_witness :
    Event.killed 100 ∈ state_two.trace ∧
      reap_loop env100 100 9 1 0 state_two = .ok state_two :=
  stale_notification_ignored env100 (some cfg1) state_one state_two state_two 1 100 9
    [(55, 0)] (by decide) (by decide) (by decide) (by decide)
    (by intro n hn; simp [env100, state_one] at hn ⊢; omega) (by decide)

/-- C5, as amended: take a line of `k` tokens with `3 ≤ k ≤ MAX_PROCESSES`,
separated by one or more spaces, after any number of leading spaces, whose
last token is followed at once by the newline or, on a last line without a
newline, by spaces only; let its first token and last two tokens start with
`/`.  It is parsed into the record whose `argv` is the first `k-2` tokens,
`argc = k-2`, `input_file` the token before the last and `output_file` the
last token without the newline. -/
theorem parse_config_line_tokens (lead : Nat) (t0 : List Char)
    (rest : List (Nat × List Char)) (newline : Bool) (trail : Nat)
    (h0 : is_token t0) (hrest : ∀ p ∈ rest, is_token p.2)
    (hk : 2 ≤ rest.length) (hmax : rest.length + 1 ≤ MAX_PROCESSES)
    (habs0 : t0.head? = some '/')
    (hin : ((t0 :: rest.map Prod.snd).getD (rest.length - 1) []).head? = some '/')
    (hout : ((t0 :: rest.map Prod.snd).getD rest.length []).head? = some '/') :
    parse_config_line (config_line lead t0 rest newline trail) = .ok
      { argc := (rest.length : Int) - 1
        argv := (t0 :: rest.map Prod.snd).take (rest.length - 1)
        input_file := (t0 :: rest.map Prod.snd).getD (rest.length - 1) []
        output_file := (t0 :: rest.map Prod.snd).getD rest.length [] } := by
  have hlen := scanned_length (line_tail newline) rest t0
  have hget := scanned_getElem? (line_tail newline) rest t0
  have hg0 : (scanned (line_tail newline) t0 rest).getD 0 [] = t0 := by
    rw [List.getD_eq_getElem?_getD, hget 0, if_pos (by omega)]
    simp
  have hgin : (scanned (line_tail newline) t0 rest).getD (rest.length - 1) [] =
      (t0 :: rest.map Prod.snd).getD (rest.length - 1) [] := by
    rw [List.getD_eq_getElem?_getD, hget (rest.length - 1), if_pos (by omega),
      List.getD_eq_getElem?_getD]
  have hgout : (scanned (line_tail newline) t0 rest).getD rest.length [] =
      (t0 :: rest.map Prod.snd).getD rest.length [] ++ line_tail newline := by
    rw [List.getD_eq_getElem?_getD, hget rest.length, if_neg (by omega), if_pos rfl]
    simp
  have hlast : is_token ((t0 :: rest.map Prod.snd).getD rest.length []) := by
    have hl : rest.length < (t0 :: rest.map Prod.snd).length := by simp
    rw [List.getD_eq_getElem?_getD, List.getElem?_eq_getElem hl, Option.getD_some]
    have hm : (t0 :: rest.map Prod.snd)[rest.length] ∈ t0 :: rest.map Prod.snd :=
      List.getElem_mem hl
    rcases List.mem_cons.mp hm with h | h
    · rw [h]; exact h0
    · obtain ⟨p, hp, hpe⟩ := List.mem_map.mp h
      rw [← hpe]
      exact hrest p hp
  have htake : (scanned (line_tail newline) t0 rest).take (rest.length - 1) =
      (t0 :: rest.map Prod.snd).take (rest.length - 1) := by
    apply List.ext_getElem?
    intro j
    rw [List.getElem?_take, List.getElem?_take, hget j]
    by_cases hj : j < rest.length - 1
    · rw [if_pos hj, if_pos hj, if_pos (by omega)]
    · rw [if_neg hj, if_neg hj]
  have h := parse_config_line_of_tokens (config_line lead t0 rest newline trail)
    (scanned (line_tail newline) t0 rest)
    (strtok_all_config_line lead t0 rest newline trail h0 hrest)
    (by rw [hg0]; exact habs0) (by omega) (by omega)
    (by
      rw [hlen]
      have e : rest.length + 1 - 2 = rest.length - 1 := by omega
      rw [e, hgin]
      exact hin)
    (by
      rw [hlen]
      have e : rest.length + 1 - 1 = rest.length := by omega
      rw [e, hgout, strip_newline_end _ hlast]
      exact hout)
  rw [h, hlen]
  have e1 : rest.length + 1 - 2 = rest.length - 1 := by omega
  have e2 : rest.length + 1 - 1 = rest.length := by omega
  rw [e1, e2, hgin, hgout, strip_newline_end _ hlast, htake]
  congr 2
  push_cast
  ring

/-- Witness of C5: the line `/bin/echo hi /tmp/in2 /tmp/out2` of the
specification's scenario, and a last line without a newline that has
several spaces between its tokens, before the first and after the last. -/
theorem parse_config_line_tokens_witness :
    (config_line 0 "/bin/echo".toList
        [(0, "hi".toList), (0, "/tmp/in2".toList), (0, "/tmp/out2".toList)] true 0 =
      "/bin/echo hi /tmp/in2 /tmp/out2\n".toList ∧
    parse_config_line "/bin/echo hi /tmp/in2 /tmp/out2\n".toList = .ok
      { argc := 2
        argv := ["/bin/echo".toList, "hi".toList]
        input_file := "/tmp/in2".toList
        output_file := "/tmp/out2".toList }) ∧
    (config_line 2 "/bin/cat".toList [(1, "/tmp/in1".toList), (0, "/tmp/out1".toList)]
        false 3 = "  /bin/cat  /tmp/in1 /tmp/out1   ".toList ∧
    parse_config_line "  /bin/cat  /tmp/in1 /tmp/out1   ".toList = .ok
      { argc := 1
        argv := ["/bin/cat".toList]
        input_file := "/tmp/in1".toList
        output_file := "/tmp/out1".toList }) :=
  ⟨⟨by decide, parse_config_line_tokens 0 "/bin/echo".toList
      [(0, "hi".toList), (0, "/tmp/in2".toList), (0, "/tmp/out2".toList)] true 0
      (by decide) (by decide) (by decide) (by decide) (by decide) (by decide) (by decide)⟩,
   ⟨by decide, parse_config_line_tokens 2 "/bin/cat".toList
      [(1, "/tmp/in1".toList), (0, "/tmp/out1".toList)] false 3
      (by decide) (by decide) (by decide) (by decide) (by decide) (by decide) (by decide)⟩⟩

/-- C5 as stated fails in three ways.  Only the space separates tokens: in
`/bin/echo<TAB>hi /tmp/in2 /tmp/out2` the code sees three tokens and returns
`argc = 1` with the single argument `/bin/echo<TAB>hi`.  The newline is taken
off the last token only: when a space stands between the last token and the
newline, the newline is a token of its own, the output path is empty and the
line is refused with `exit(EXIT_FAILURE)`.  And `argv` has room for
`MAX_PROCESSES` pointers: on a line of eleven tokens the eleventh is stored
outside the block. -/
theorem parse_config_line_tab_and_overflow :
    parse_config_line "/bin/echo\thi /tmp/in2 /tmp/out2\n".toList = .ok
      { argc := 1
        argv := ["/bin/echo\thi".toList]
        input_file := "/tmp/in2".toList
        output_file := "/tmp/out2".toList } ∧
    strtok_all "/bin/echo hi /tmp/in2 /tmp/out2 \n".toList =
      ["/bin/echo".toList, "hi".toList, "/tmp/in2".toList, "/tmp/out2".toList,
        "\n".toList] ∧
    parse_config_line "/bin/echo hi /tmp/in2 /tmp/out2 \n".toList = .error .exit_failure ∧
    strtok_all line11 = ["/a".toList, "/b".toList, "/c".toList, "/d".toList, "/e".toList,
      "/f".toList, "/g".toList, "/h".toList, "/i".toList, "/j".toList, "/k\n".toList] ∧
    parse_config_line line11 = .error .undefined_behaviour := by
  decide

/-- C8 fails on the code: the line `/a /b` has two tokens, both absolute; it
is accepted, and the record returned has `argc = 0` and an empty argument
vector (`argv[0]` is `NULL`): there is no executable path. -/
theorem parse_config_line_two_tokens :
    parse_config_line "/a /b\n".toList = .ok
      { argc := 0
        argv := []
        input_file := "/a".toList
        output_file := "/b".toList } := by
  decide

/-- C9 fails on the code: with eleven accepted lines the load loop of
`run_processes` stores the eleventh record at index 10 of `process_configs`,
outside the array; there is no check and no exit. -/
theorem load_loop_overflow :
    cfg11.length = 11 ∧ (∀ l ∈ cfg11, parse_config_line l = .ok spec_cat) ∧
      (load_loop (cfg11.take 10) 0 State.init).map (fun r => r.2) = .ok 10 ∧
      load_loop cfg11 0 State.init = .error .undefined_behaviour ∧
      run_processes_start env100 (some cfg11) State.init = .error .undefined_behaviour := by
  decide

end Myinit
